import Mathlib

/-!
Verification of the documentation-synthesis engine in
`scripts/add_csharp_xml_docs.py`.

The development shallowly embeds the script: a file is a list of lines
(strings without their trailing newline terminators; the script reads
lines with `splitlines(keepends=True)` and every regex/substring check
it performs is insensitive to this difference for newline-free needles,
see `blockTextOf`).  The three module-level regular expressions are
embedded as hand-rolled matchers that implement the exact backtracking
semantics of the Python `re` patterns on the character classes involved
(all the character classes in the patterns are disjoint from whitespace,
which makes every greedy repetition deterministic except the optional
modifier groups; those are embedded with an explicit fallback mirroring
the regex engine, see `tryOpt` and `modsThenTail`).  Python string
functions (`lstrip`, `strip`, `split`, `lower`, `in`) are embedded over
ASCII, which coincides with Python on the ASCII identifiers and source
lines the script manipulates.
-/

/-! Character classes.  `wsCh` is Python's `\s` on ASCII. -/

def wsCh (c : Char) : Bool :=
  c == ' ' || c == '\t' || c == '\n' || c == '\x0d' || c == '\x0b' || c == '\x0c'

def isUpCh (c : Char) : Bool := 'A' ≤ c && c ≤ 'Z'

def isLoCh (c : Char) : Bool := 'a' ≤ c && c ≤ 'z'

def isDigCh (c : Char) : Bool := '0' ≤ c && c ≤ '9'

def isAlnumCh (c : Char) : Bool := isUpCh c || isLoCh c || isDigCh c

def idStartCh (c : Char) : Bool := isUpCh c || isLoCh c || c == '_'

def idCh (c : Char) : Bool := idStartCh c || isDigCh c

-- the character class of the return-type / property-type token:
-- [A-Za-z0-9_<>,\[\]\.\?]
def retTokCh (c : Char) : Bool :=
  isAlnumCh c || c == '_' || c == '<' || c == '>' || c == ',' ||
  c == '[' || c == ']' || c == '.' || c == '?'

/-! Python string primitives over ASCII. -/

def listLstrip (l : List Char) : List Char := l.dropWhile wsCh

def listStrip (l : List Char) : List Char :=
  ((l.dropWhile wsCh).reverse.dropWhile wsCh).reverse

def lstripStr (s : String) : String := String.mk (listLstrip s.data)

def pyStrip (s : String) : String := String.mk (listStrip s.data)

-- Python str.lower(); Char.toLower only lower-cases ASCII, which agrees
-- with Python on the ASCII identifiers the script manipulates.
def lowerStr (s : String) : String := String.mk (s.data.map Char.toLower)

-- substring containment, Python's `needle in hay`
def subAt : List Char → List Char → Bool
  | [], _ => true
  | _ :: _, [] => false
  | a :: as, b :: bs => a == b && subAt as bs

def hasSub (n : List Char) : List Char → Bool
  | [] => subAt n []
  | c :: hs => subAt n (c :: hs) || hasSub n hs

def containsSub (needle hay : String) : Bool := hasSub needle.data hay.data

-- Python str.startswith / str.endswith
def strStarts (s pre : String) : Bool := subAt pre.data s.data

def strEnds (s post : String) : Bool := subAt post.data.reverse s.data.reverse

-- Python str.split() with no separator: split on maximal whitespace runs,
-- dropping empty words
def wordsGo (acc : List Char) : List Char → List (List Char)
  | [] => if acc.isEmpty then [] else [acc.reverse]
  | c :: cs =>
    if wsCh c then
      if acc.isEmpty then wordsGo [] cs else acc.reverse :: wordsGo [] cs
    else wordsGo (c :: acc) cs

def pyWords (s : String) : List String := (wordsGo [] s.data).map String.mk

-- Python str.split(sep) for a one-character separator
def splitChGo (sep : Char) : List Char → List (List Char)
  | [] => [[]]
  | c :: cs =>
    if c == sep then [] :: splitChGo sep cs
    else
      match splitChGo sep cs with
      | [] => [[c]]
      | w :: ws => (c :: w) :: ws

def splitCh (sep : Char) (s : String) : List String :=
  (splitChGo sep s.data).map String.mk

/-! Tokenizer: `split_identifier`, the scan of
`re.findall(r"[A-Z]?[a-z]+|[A-Z]+(?![a-z])|\d+", name)`.

At an uppercase character whose successor is not lowercase the second
alternative `[A-Z]+(?![a-z])` applies: it consumes the maximal run of
uppercase letters, backing off by one when the run is followed by a
lowercase letter (the negative lookahead).  `splitUpper c l` performs
this on the run starting with `c` and returns the matched fragment
together with the unconsumed remainder. -/

def splitUpper (c : Char) : List Char → List Char × List Char
  | [] => ([c], [])
  | d :: ds =>
    if isLoCh d then ([], c :: d :: ds)
    else if isUpCh d then
      let r := splitUpper d ds
      (c :: r.1, r.2)
    else ([c], d :: ds)

theorem splitUpper_append (c : Char) (l : List Char) :
    (splitUpper c l).1 ++ (splitUpper c l).2 = c :: l := by
  induction l generalizing c with
  | nil => simp [splitUpper]
  | cons d ds ih =>
    by_cases h1 : isLoCh d = true
    · simp [splitUpper, h1]
    · by_cases h2 : isUpCh d = true
      · simpa [splitUpper, h1, h2] using ih d
      · simp [splitUpper, h1, h2]

theorem splitUpper_fst_upper (c : Char) (l : List Char) (hc : isUpCh c = true) :
    ∀ x ∈ (splitUpper c l).1, isUpCh x = true := by
  induction l generalizing c with
  | nil => simpa [splitUpper] using hc
  | cons d ds ih =>
    by_cases h1 : isLoCh d = true
    · simp [splitUpper, h1]
    · by_cases h2 : isUpCh d = true
      · intro x hx
        simp only [splitUpper, h1, h2, if_true, if_false, Bool.false_eq_true] at hx
        rcases List.mem_cons.mp hx with h | h
        · simpa [h] using hc
        · exact ih d h2 x h
      · intro x hx
        simp only [splitUpper, h1, h2, if_true, if_false, Bool.false_eq_true] at hx
        simp at hx
        simpa [hx] using hc

theorem splitUpper_fst_ne_nil (c : Char) (l : List Char)
    (h : ∀ d, l.head? = some d → isLoCh d = false) :
    (splitUpper c l).1 ≠ [] := by
  cases l with
  | nil => simp [splitUpper]
  | cons d ds =>
    have hd : isLoCh d = false := h d rfl
    by_cases h2 : isUpCh d = true
    · simp [splitUpper, hd, h2]
    · simp [splitUpper, hd, h2]

theorem splitUpper_snd_length (c : Char) (l : List Char)
    (h : ∀ d, l.head? = some d → isLoCh d = false) :
    (splitUpper c l).2.length < l.length + 1 := by
  have happ := splitUpper_append c l
  have hne := splitUpper_fst_ne_nil c l h
  have hlen : (splitUpper c l).1.length + (splitUpper c l).2.length = l.length + 1 := by
    have := congrArg List.length happ
    simpa [List.length_append] using this
  have : 1 ≤ (splitUpper c l).1.length := by
    cases hf : (splitUpper c l).1 with
    | nil => exact absurd hf hne
    | cons a as => simp
  omega

theorem dropWhile_length_le (p : Char → Bool) (l : List Char) :
    (l.dropWhile p).length ≤ l.length := by
  induction l with
  | nil => simp [List.dropWhile]
  | cons a l ih =>
    simp only [List.dropWhile]
    split
    · exact le_trans ih (by simp)
    · simp

-- The scan is written with a fuel argument (structural recursion, so that
-- the kernel can evaluate it on concrete inputs); fuel equal to the length
-- of the list always suffices, which `splitIdentGo_fuel` makes precise.
def splitIdentGo : Nat → List Char → List (List Char)
  | _, [] => []
  | 0, _ :: _ => []
  | fuel + 1, c :: cs =>
    if isLoCh c then
      (c :: cs.takeWhile isLoCh) :: splitIdentGo fuel (cs.dropWhile isLoCh)
    else if isUpCh c then
      match cs with
      | [] => [[c]]
      | d :: ds =>
        if isLoCh d then
          (c :: d :: ds.takeWhile isLoCh) :: splitIdentGo fuel (ds.dropWhile isLoCh)
        else
          (splitUpper c (d :: ds)).1 :: splitIdentGo fuel (splitUpper c (d :: ds)).2
    else if isDigCh c then
      (c :: cs.takeWhile isDigCh) :: splitIdentGo fuel (cs.dropWhile isDigCh)
    else
      splitIdentGo fuel cs

def splitIdentCore (l : List Char) : List (List Char) := splitIdentGo l.length l

def split_identifier (name : String) : List String :=
  (splitIdentCore name.data).map String.mk

def to_korean_noun (tokens : List String) : String :=
  String.intercalate " " tokens

/-! Correctness of the tokenizer scan. -/

theorem lo_alnum (c : Char) (h : isLoCh c = true) : isAlnumCh c = true := by
  simp [isAlnumCh, h]

theorem up_alnum (c : Char) (h : isUpCh c = true) : isAlnumCh c = true := by
  simp [isAlnumCh, h]

theorem dig_alnum (c : Char) (h : isDigCh c = true) : isAlnumCh c = true := by
  simp [isAlnumCh, h]

theorem not_alnum (c : Char) (h1 : isLoCh c = false) (h2 : isUpCh c = false)
    (h3 : isDigCh c = false) : isAlnumCh c = false := by
  simp [isAlnumCh, h1, h2, h3]

theorem splitIdentGo_lower (fuel : Nat) (c : Char) (cs : List Char)
    (h : isLoCh c = true) :
    splitIdentGo (fuel + 1) (c :: cs) =
      (c :: cs.takeWhile isLoCh) :: splitIdentGo fuel (cs.dropWhile isLoCh) := by
  simp [splitIdentGo, h]

theorem splitIdentGo_upper_nil (fuel : Nat) (c : Char)
    (h1 : isLoCh c = false) (h2 : isUpCh c = true) :
    splitIdentGo (fuel + 1) [c] = [[c]] := by
  simp [splitIdentGo, h1, h2]

theorem splitIdentGo_upper_lower (fuel : Nat) (c d : Char) (ds : List Char)
    (h1 : isLoCh c = false) (h2 : isUpCh c = true) (h3 : isLoCh d = true) :
    splitIdentGo (fuel + 1) (c :: d :: ds) =
      (c :: d :: ds.takeWhile isLoCh) :: splitIdentGo fuel (ds.dropWhile isLoCh) := by
  simp [splitIdentGo, h1, h2, h3]

theorem splitIdentGo_upper_run (fuel : Nat) (c d : Char) (ds : List Char)
    (h1 : isLoCh c = false) (h2 : isUpCh c = true) (h3 : isLoCh d = false) :
    splitIdentGo (fuel + 1) (c :: d :: ds) =
      (splitUpper c (d :: ds)).1 :: splitIdentGo fuel (splitUpper c (d :: ds)).2 := by
  simp [splitIdentGo, h1, h2, h3]

theorem splitIdentGo_digit (fuel : Nat) (c : Char) (cs : List Char)
    (h1 : isLoCh c = false) (h2 : isUpCh c = false) (h3 : isDigCh c = true) :
    splitIdentGo (fuel + 1) (c :: cs) =
      (c :: cs.takeWhile isDigCh) :: splitIdentGo fuel (cs.dropWhile isDigCh) := by
  simp [splitIdentGo, h1, h2, h3]

theorem splitIdentGo_skip (fuel : Nat) (c : Char) (cs : List Char)
    (h1 : isLoCh c = false) (h2 : isUpCh c = false) (h3 : isDigCh c = false) :
    splitIdentGo (fuel + 1) (c :: cs) = splitIdentGo fuel cs := by
  cases cs with
  | nil => simp [splitIdentGo, h1, h2, h3]
  | cons d ds => simp [splitIdentGo, h1, h2, h3]

theorem filter_takeWhile_all {p q : Char → Bool} (h : ∀ c, q c = true → p c = true)
    (l : List Char) : (l.takeWhile q).filter p = l.takeWhile q :=
  List.filter_eq_self.mpr fun a ha => h a (List.mem_takeWhile_imp ha)

theorem filter_split (p q : Char → Bool) (l : List Char) :
    l.filter p = (l.takeWhile q).filter p ++ (l.dropWhile q).filter p := by
  conv_lhs => rw [← List.takeWhile_append_dropWhile q l]
  rw [List.filter_append]

theorem splitIdentGo_flatten :
    ∀ fuel (l : List Char), l.length ≤ fuel →
      (splitIdentGo fuel l).flatten = l.filter isAlnumCh := by
  intro fuel
  induction fuel with
  | zero =>
    intro l h
    have hl : l = [] := List.eq_nil_of_length_eq_zero (Nat.le_zero.mp h)
    subst hl
    simp [splitIdentGo]
  | succ fuel ih =>
    intro l h
    cases l with
    | nil => simp [splitIdentGo]
    | cons c cs =>
      have hcs : cs.length ≤ fuel := by
        simp only [List.length_cons] at h
        omega
      cases hlo : isLoCh c with
      | true =>
        rw [splitIdentGo_lower fuel c cs hlo, List.flatten_cons]
        rw [ih _ (le_trans (dropWhile_length_le _ _) hcs)]
        rw [List.filter_cons_of_pos (lo_alnum c hlo)]
        rw [filter_split isAlnumCh isLoCh cs, filter_takeWhile_all lo_alnum cs]
        simp
      | false =>
        cases hup : isUpCh c with
        | true =>
          cases cs with
          | nil =>
            rw [splitIdentGo_upper_nil fuel c hlo hup]
            simp [up_alnum c hup]
          | cons d ds =>
            cases hd : isLoCh d with
            | true =>
              have hds : ds.length ≤ fuel := by
                simp only [List.length_cons] at hcs
                omega
              rw [splitIdentGo_upper_lower fuel c d ds hlo hup hd, List.flatten_cons]
              rw [ih _ (le_trans (dropWhile_length_le _ _) hds)]
              rw [List.filter_cons_of_pos (up_alnum c hup),
                List.filter_cons_of_pos (lo_alnum d hd)]
              rw [filter_split isAlnumCh isLoCh ds, filter_takeWhile_all lo_alnum ds]
              simp
            | false =>
              have hsnd : (splitUpper c (d :: ds)).2.length ≤ (d :: ds).length := by
                have := splitUpper_snd_length c (d :: ds)
                  (by intro x hx; simp at hx; subst hx; simpa using hd)
                omega
              rw [splitIdentGo_upper_run fuel c d ds hlo hup hd, List.flatten_cons]
              rw [ih _ (le_trans hsnd hcs)]
              have happ := splitUpper_append c (d :: ds)
              have hfu := splitUpper_fst_upper c (d :: ds) hup
              conv_rhs => rw [show (c :: d :: ds) = (splitUpper c (d :: ds)).1 ++
                (splitUpper c (d :: ds)).2 from happ.symm]
              rw [List.filter_append,
                List.filter_eq_self.mpr (fun a ha => up_alnum a (hfu a ha))]
        | false =>
          cases hdig : isDigCh c with
          | true =>
            rw [splitIdentGo_digit fuel c cs hlo hup hdig, List.flatten_cons]
            rw [ih _ (le_trans (dropWhile_length_le _ _) hcs)]
            rw [List.filter_cons_of_pos (dig_alnum c hdig)]
            rw [filter_split isAlnumCh isDigCh cs, filter_takeWhile_all dig_alnum cs]
            simp
          | false =>
            rw [splitIdentGo_skip fuel c cs hlo hup hdig]
            rw [ih _ hcs]
            rw [List.filter_cons_of_neg (by simp [not_alnum c hlo hup hdig])]

theorem splitIdentGo_ne_nil :
    ∀ fuel (l : List Char), l.length ≤ fuel →
      ∀ f ∈ splitIdentGo fuel l, f ≠ [] := by
  intro fuel
  induction fuel with
  | zero =>
    intro l h
    have hl : l = [] := List.eq_nil_of_length_eq_zero (Nat.le_zero.mp h)
    subst hl
    simp [splitIdentGo]
  | succ fuel ih =>
    intro l h
    cases l with
    | nil => simp [splitIdentGo]
    | cons c cs =>
      have hcs : cs.length ≤ fuel := by
        simp only [List.length_cons] at h
        omega
      cases hlo : isLoCh c with
      | true =>
        rw [splitIdentGo_lower fuel c cs hlo]
        rintro f hf
        rcases List.mem_cons.mp hf with rfl | hf2
        · simp
        · exact ih _ (le_trans (dropWhile_length_le _ _) hcs) f hf2
      | false =>
        cases hup : isUpCh c with
        | true =>
          cases cs with
          | nil =>
            rw [splitIdentGo_upper_nil fuel c hlo hup]
            simp
          | cons d ds =>
            cases hd : isLoCh d with
            | true =>
              have hds : ds.length ≤ fuel := by
                simp only [List.length_cons] at hcs
                omega
              rw [splitIdentGo_upper_lower fuel c d ds hlo hup hd]
              rintro f hf
              rcases List.mem_cons.mp hf with rfl | hf2
              · simp
              · exact ih _ (le_trans (dropWhile_length_le _ _) hds) f hf2
            | false =>
              have hsnd : (splitUpper c (d :: ds)).2.length ≤ (d :: ds).length := by
                have := splitUpper_snd_length c (d :: ds)
                  (by intro x hx; simp at hx; subst hx; simpa using hd)
                omega
              rw [splitIdentGo_upper_run fuel c d ds hlo hup hd]
              rintro f hf
              rcases List.mem_cons.mp hf with rfl | hf2
              · exact splitUpper_fst_ne_nil c (d :: ds)
                  (by intro x hx; simp at hx; subst hx; simpa using hd)
              · exact ih _ (le_trans hsnd hcs) f hf2
        | false =>
          cases hdig : isDigCh c with
          | true =>
            rw [splitIdentGo_digit fuel c cs hlo hup hdig]
            rintro f hf
            rcases List.mem_cons.mp hf with rfl | hf2
            · simp
            · exact ih _ (le_trans (dropWhile_length_le _ _) hcs) f hf2
          | false =>
            rw [splitIdentGo_skip fuel c cs hlo hup hdig]
            exact ih _ hcs

/-- Claim C6: for every identifier (as a character sequence), concatenating the
fragments produced by the tokenizer scan of split_identifier, in order, yields
exactly the identifier with all non-alphanumeric characters removed (case
preserved), and the fragment sequence is empty if and only if the identifier
contains no letters or digits. -/
theorem claim_C6_tokenizer_concat (l : List Char) :
    (splitIdentCore l).flatten = l.filter isAlnumCh ∧
    (splitIdentCore l = [] ↔ l.filter isAlnumCh = []) := by
  have hf := splitIdentGo_flatten l.length l le_rfl
  refine ⟨hf, ?_, ?_⟩
  · intro h
    have : (splitIdentCore l).flatten = l.filter isAlnumCh := hf
    rw [h] at this
    exact this.symm.trans rfl
  · intro h
    cases hsc : splitIdentCore l with
    | nil => rfl
    | cons f fs =>
      have hm : f ∈ splitIdentCore l := by
        rw [hsc]
        exact List.mem_cons_self f fs
      have hne : f ≠ [] := splitIdentGo_ne_nil l.length l le_rfl f hm
      have hflat : (f :: fs).flatten = l.filter isAlnumCh := by
        rw [← hsc]
        exact hf
      rw [h, List.flatten_cons] at hflat
      exact absurd (List.append_eq_nil.mp hflat).1 hne

/-- Witness for claim C6 at a concrete identifier. -/
theorem claim_C6_tokenizer_concat_witness :
    (splitIdentCore "GetUserCount".data).flatten = "GetUserCount".data.filter isAlnumCh ∧
    (splitIdentCore "GetUserCount".data = [] ↔ "GetUserCount".data.filter isAlnumCh = []) :=
  claim_C6_tokenizer_concat "GetUserCount".data

/-! Phrase renderer and heuristic classifier. -/

-- param_korean_desc: lookup of ~17 canned parameter-name phrases with a
-- generic fallback
def param_korean_desc (name : String) : String :=
  let key := lowerStr name
  if key == "value" then "입력 값"
  else if key == "targettype" then "대상 형식"
  else if key == "param" then "매개 변수"
  else if key == "parameter" then "매개 변수"
  else if key == "culture" then "문화권 정보"
  else if key == "target" then "대상"
  else if key == "type" then "형식"
  else if key == "name" then "이름"
  else if key == "collection" then "컬렉션"
  else if key == "items" then "항목들"
  else if key == "str" then "문자열"
  else if key == "color" then "색"
  else if key == "attr" then "특성"
  else if key == "actual" then "실제값"
  else if key == "expect" then "기대값"
  else if key == "op" then "연산자"
  else if key == "obj" then "대상"
  else "매개 변수"

def return_korean_desc_by_name (summary_text : String) : String :=
  if containsSub "여부" summary_text then
    if containsSub "성공" summary_text then "성공하면 true를 반환합니다."
    else "조건을 만족하면 true를 반환합니다."
  else if containsSub "변환" summary_text then "변환 결과를 반환합니다."
  else if containsSub "가져옵니다" summary_text || containsSub "찾습니다" summary_text
      || containsSub "생성합니다" summary_text then "결과를 반환합니다."
  else "결과를 반환합니다."

def guess_summary_for_member (name kind : String) (file_text : String)
    (return_type : Option String) (decl_kind : Option String) : String :=
  let tokens := split_identifier name
  let lower := lowerStr name
  let noun1 := to_korean_noun (tokens.drop 1)
  if kind == "type" then
    if decl_kind == some "interface" then
      if strStarts name "I" && 1 < tokens.length then noun1 ++ " 인터페이스를 정의합니다."
      else "인터페이스를 정의합니다."
    else if decl_kind == some "enum" then "열거형을 정의합니다."
    else if containsSub "Converters" file_text || containsSub "IValueConverter" file_text then
      "값 변환기를 제공합니다."
    else if containsSub "Helpers" file_text then "유틸리티 메서드를 제공합니다."
    else if strEnds name "Attribute" then "사용자 지정 특성을 정의합니다."
    else if strEnds name "Extensions" || strEnds name "Ext" then "확장 메서드를 제공합니다."
    else to_korean_noun tokens ++ "를(을) 제공합니다."
  else if strStarts lower "get" then
    if 1 < tokens.length then noun1 ++ "를(을) 가져옵니다." else "값을 가져옵니다."
  else if strStarts lower "set" then
    if 1 < tokens.length then noun1 ++ "를(을) 설정합니다." else "값을 설정합니다."
  else if strStarts lower "add" then noun1 ++ "를(을) 추가합니다."
  else if strStarts lower "remove" then noun1 ++ "를(을) 제거합니다."
  else if strStarts lower "update" then noun1 ++ "를(을) 업데이트합니다."
  else if strStarts lower "create" || strStarts lower "build" then noun1 ++ "를(을) 생성합니다."
  else if strStarts lower "delete" then noun1 ++ "를(을) 삭제합니다."
  else if strStarts lower "find" || strStarts lower "search" then noun1 ++ "를(을) 찾습니다."
  else if strStarts lower "load" then noun1 ++ "를(을) 로드합니다."
  else if strStarts lower "save" then noun1 ++ "를(을) 저장합니다."
  else if strStarts lower "parse" then noun1 ++ "를(을) 구문 분석합니다."
  else if (name == "Convert" || name == "ConvertBack")
      && (containsSub "IValueConverter" file_text || containsSub "System.Windows.Data" file_text) then
    if name == "Convert" then "값을 변환합니다." else "대상 값을 원본으로 변환합니다."
  else if strStarts lower "to" || strStarts lower "convert" then noun1 ++ "로 변환합니다."
  else if strStarts lower "try" then noun1 ++ "를(을) 시도하고, 성공 여부를 반환합니다."
  else if strStarts lower "is" then noun1 ++ "인지 여부를 확인합니다."
  else if strStarts lower "has" then noun1 ++ "를(을) 보유하는지 여부를 확인합니다."
  else if (name == "Convert" || name == "ConvertBack")
      && (containsSub "IValueConverter" file_text || containsSub "System.Windows.Data" file_text) then
    -- unreachable duplicate of the converter special case, kept from the source
    if name == "Convert" then "값을 변환합니다." else "대상 값을 원본으로 변환합니다."
  else if name == "Contains" then "포함 여부를 확인합니다."
  else if name == "StartsWith" then "시작 여부를 확인합니다."
  else if name == "EndsWith" then "끝나는지 여부를 확인합니다."
  else if kind == "property" then to_korean_noun tokens ++ "를(을) 가져오거나 설정합니다."
  else "동작을 수행합니다."

/-! Block builder. -/

def build_summary_block (summary_text : String) : List String :=
  ["/// <summary>", "/// " ++ summary_text, "/// </summary>"]

-- re.sub(r"\[[^\]]*\]", "", raw): delete every group running from a '[' to
-- the next ']'; a '[' with no later ']' is left in place (the pattern
-- cannot match at or after it).  Fueled structural recursion; fuel equal
-- to the length of the list suffices.
def removeBracketsGo : Nat → List Char → List Char
  | _, [] => []
  | 0, l => l
  | fuel + 1, c :: rest =>
    if c == '[' then
      if rest.any (fun x => x == ']') then
        removeBracketsGo fuel ((rest.dropWhile (fun x => !(x == ']'))).drop 1)
      else c :: rest
    else c :: removeBracketsGo fuel rest

def removeBrackets (s : String) : String :=
  String.mk (removeBracketsGo s.data.length s.data)

def lookupStr (l : List (String × String)) (k : String) : Option String :=
  (l.find? (fun kv => kv.1 == k)).map (fun kv => kv.2)

-- Python `a or b` where `a` is None or a string: empty strings fall through
def orElseNonEmpty (o : Option String) (d : String) : String :=
  match o with
  | some s => if s == "" then d else s
  | none => d

def paramModifierWord (w : String) : Bool :=
  w == "ref" || w == "out" || w == "in" || w == "params" || w == "this"

-- the parameter-line mapping of the loop body in build_method_block
def paramLineOf (param_overrides : Option (List (String × String))) (p : String) :
    Option String :=
  if p == "" then none
  else
    let raw := pyStrip (removeBrackets p)
    let left := pyStrip ((splitCh '=' raw).headD "")
    let parts := (pyWords left).filter (fun w => !paramModifierWord w)
    match parts.getLast? with
    | none => none
    | some last0 =>
      let last := pyStrip last0
      let desc :=
        match param_overrides with
        | some po =>
          if !po.isEmpty && (lookupStr po last).isSome then (lookupStr po last).getD ""
          else param_korean_desc last
        | none => param_korean_desc last
      some ("/// <param name=\"" ++ last ++ "\">" ++ desc ++ "</param>")

def build_method_block (summary_text return_type params : String)
    (return_hint : Option String) (param_overrides : Option (List (String × String)))
    (returns_override : Option String) : List String :=
  let base := build_summary_block summary_text
  let ps := if pyStrip params == "" then [] else (splitCh ',' params).map pyStrip
  let plines := ps.filterMap (paramLineOf param_overrides)
  let rets :=
    if !(return_type == "") && !(return_type == "void") then
      ["/// <returns>" ++
        orElseNonEmpty returns_override
          (orElseNonEmpty return_hint (return_korean_desc_by_name summary_text)) ++
        "</returns>"]
    else []
  base ++ plines ++ rets

/-! Override table (`DOC_OVERRIDES`) and resolver (`match_override`). -/

structure OvEntry where
  summary : Option String
  params : Option (List (String × String))
  returns : Option String
deriving DecidableEq, Repr

-- key → kind → member name → entry, in the insertion order of the source dict
def DOC_OVERRIDES : List (String × List (String × List (String × OvEntry))) :=
  [("Helpers/CollectionHelper.cs",
    [("method",
      [("AddRange",
        { summary := some "지정한 항목들을 컬렉션에 순차적으로 추가합니다.",
          params := some [("collection", "대상 컬렉션"), ("items", "추가할 항목 시퀀스")],
          returns := none })])]),
   ("Helpers/ColorHelper.cs",
    [("method",
      [("GetColorName",
        { summary := some "입력 색상과 일치하는 미리 정의된 색상 이름을 반환합니다. 없으면 색상 문자열을 반환합니다.",
          params := some [("color", "색상 값")],
          returns := some "색상 이름 또는 색상 문자열" }),
       ("ToColor",
        { summary := some "문자열 표현을 Color로 변환합니다. 실패 시 기본 색을 반환합니다.",
          params := some [("str", "색상 문자열"), ("defaultColor", "파싱 실패 시 반환할 기본 색")],
          returns := some "변환된 색상 값" }),
       ("TryConvertColor",
        { summary := some "문자열을 Color로 변환을 시도합니다.",
          params := some [("str", "색상 문자열"), ("color", "변환 성공 시 결과 색상")],
          returns := some "성공하면 true, 실패하면 false" })])]),
   ("Helpers/DataTableHelper.cs",
    [("method",
      [("ToList",
        { summary := some "컬렉션의 항목을 목록(List)으로 변환합니다.",
          params := none,
          returns := none })])])]

def ovEntryFor (key kind member_name : String) : Option OvEntry :=
  match (DOC_OVERRIDES.find? (fun kv => kv.1 == key)).map (fun kv => kv.2) with
  | none => none
  | some spec =>
    match (spec.find? (fun kv => kv.1 == kind)).map (fun kv => kv.2) with
    | none => none
    | some members => (members.find? (fun kv => kv.1 == member_name)).map (fun kv => kv.2)

-- a file path is embedded as its list of segments (Path.parts); the script
-- only ever uses as_posix(), parts and name, all derivable from the segments
def match_override (path : List String) (member_name kind : String) : Option OvEntry :=
  let rel :=
    if 2 ≤ path.length then String.intercalate "/" (path.drop (path.length - 2))
    else String.intercalate "/" path
  match ovEntryFor rel kind member_name with
  | some e => some e
  | none =>
    let fname := (path.getLast?).getD ""
    match ovEntryFor fname kind member_name with
    | some e => some e
    | none =>
      (DOC_OVERRIDES.filterMap (fun kv =>
        if strEnds kv.1 fname then
          match (kv.2.find? (fun ks => ks.1 == kind)).map (fun ks => ks.2) with
          | none => none
          | some members => (members.find? (fun km => km.1 == member_name)).map (fun km => km.2)
        else none)).head?

/-! Declaration matcher: hand-rolled embeddings of the three regexes. -/

structure TypeM where
  declKind : String
  name : String
deriving DecidableEq, Repr

structure MethodM where
  ret : String
  name : String
  params : String
deriving DecidableEq, Repr

structure PropM where
  ptype : String
  name : String
deriving DecidableEq, Repr

-- consume a literal character sequence
def consumeLit : List Char → List Char → Option (List Char)
  | [], l => some l
  | _ :: _, [] => none
  | c :: cs, d :: ds => if c == d then consumeLit cs ds else none

-- `\s+` (greedy; all following pattern parts start with non-whitespace
-- characters, so consuming the maximal run is faithful)
def ws1 : List Char → Option (List Char)
  | [] => none
  | c :: cs => if wsCh c then some (cs.dropWhile wsCh) else none

-- a keyword followed by `\s+`
def kwWs (kw : String) (l : List Char) : Option (List Char) :=
  (consumeLit kw.data l).bind ws1

-- the optional group `(?:kw\s+)?` with regex backtracking: first try the
-- continuation after consuming the group, then without it
def tryOpt (kw : String) (k : List Char → Option α) (l : List Char) : Option α :=
  match kwWs kw l with
  | some l2 => (k l2).orElse (fun _ => k l)
  | none => k l

-- `(public|internal)\s+` (the two words are not prefixes of one another,
-- so no backtracking across the alternation is possible)
def accessThen (k : List Char → Option α) (l : List Char) : Option α :=
  match kwWs "public" l with
  | some l2 => k l2
  | none =>
    match kwWs "internal" l with
    | some l2 => k l2
    | none => none

-- `([A-Za-z_][A-Za-z0-9_]*)`; the following `\b` in TYPE_PATTERN is
-- automatic since the greedy run always ends before a non-word character
def parseIdent : List Char → Option (List Char × List Char)
  | [] => none
  | c :: cs =>
    if idStartCh c then some (c :: cs.takeWhile idCh, cs.dropWhile idCh) else none

def typeKindName : List Char → Option TypeM
  | l =>
    let tryKind := fun (kw : String) =>
      match kwWs kw l with
      | some l2 =>
        match parseIdent l2 with
        | some (nm, _) => some { declKind := kw, name := String.mk nm : TypeM }
        | none => none
      | none => none
    ((tryKind "class").orElse (fun _ =>
      (tryKind "struct").orElse (fun _ =>
        (tryKind "interface").orElse (fun _ => tryKind "enum"))))

def TYPE_PATTERN_match (line : String) : Option TypeM :=
  accessThen (tryOpt "static" (tryOpt "partial" typeKindName)) (listLstrip line.data)

-- `(?:\{|=>|where|$)`
def methodEnding : List Char → Bool
  | [] => true
  | '{' :: _ => true
  | '=' :: '>' :: _ => true
  | 'w' :: 'h' :: 'e' :: 'r' :: 'e' :: _ => true
  | _ => false

-- `([A-Za-z0-9_<>,\[\]\.\?]+)\s+([A-Za-z_][A-Za-z0-9_]*)\s*\(([^)]*)\)\s*(?:\{|=>|where|$)`
-- every greedy repetition here is deterministic: the token classes never
-- contain whitespace or the following delimiter, so shorter matches of a
-- greedy run can never make the next pattern part succeed
def methodTail : List Char → Option MethodM
  | [] => none
  | c :: cs =>
    if retTokCh c then
      let ret := c :: cs.takeWhile retTokCh
      match ws1 (cs.dropWhile retTokCh) with
      | none => none
      | some l2 =>
        match parseIdent l2 with
        | none => none
        | some (nm, l3) =>
          match l3.dropWhile wsCh with
          | '(' :: l5 =>
            let ps := l5.takeWhile (fun x => !(x == ')'))
            match l5.dropWhile (fun x => !(x == ')')) with
            | ')' :: l6 =>
              if methodEnding (l6.dropWhile wsCh) then
                some { ret := String.mk ret, name := String.mk nm, params := String.mk ps }
              else none
            | _ => none
          | _ => none
    else none

-- one alternative of `(?:static\s+|virtual\s+|override\s+|sealed\s+|async\s+|new\s+)`
-- (the six words are pairwise non-prefixes, so at most one can apply)
def consumeModWs (l : List Char) : Option (List Char) :=
  ((kwWs "static" l).orElse (fun _ =>
    (kwWs "virtual" l).orElse (fun _ =>
      (kwWs "override" l).orElse (fun _ =>
        (kwWs "sealed" l).orElse (fun _ =>
          (kwWs "async" l).orElse (fun _ => kwWs "new" l))))))

-- the `*` repetition of the modifier group with regex backtracking: prefer
-- more repetitions, fall back to fewer when the tail fails (e.g.
-- `public new Foo()` matches with return type `new`).  Fueled structural
-- recursion; each consumed modifier removes at least four characters, so
-- fuel equal to the length of the input suffices.
def modsThenTail : Nat → List Char → Option MethodM
  | 0, l => methodTail l
  | fuel + 1, l =>
    match consumeModWs l with
    | some l2 => (modsThenTail fuel l2).orElse (fun _ => methodTail l)
    | none => methodTail l

def METHOD_PATTERN_match (line : String) : Option MethodM :=
  accessThen (fun l => modsThenTail l.length l) (listLstrip line.data)

-- `([A-Za-z0-9_<>,\[\]\.\?]+)\s+([A-Za-z_][A-Za-z0-9_]*)\s*\{.*`
def propTail : List Char → Option PropM
  | [] => none
  | c :: cs =>
    if retTokCh c then
      let ty := c :: cs.takeWhile retTokCh
      match ws1 (cs.dropWhile retTokCh) with
      | none => none
      | some l2 =>
        match parseIdent l2 with
        | none => none
        | some (nm, l3) =>
          match l3.dropWhile wsCh with
          | '{' :: _ => some { ptype := String.mk ty, name := String.mk nm }
          | _ => none
    else none

def PROPERTY_PATTERN_match (line : String) : Option PropM :=
  accessThen (tryOpt "static" propTail) (listLstrip line.data)

/-! Comment block locator: `find_preceding_xml_block`. -/

def isDocLine (s : String) : Bool := strStarts (lstripStr s) "///"

-- the skip condition of the locator loop: st.strip() == "" or
-- (st.startswith("[") and not st.startswith("///")) for st = s.lstrip()
def isBlankOrAttr (s : String) : Bool :=
  let st := lstripStr s
  pyStrip st == "" || (strStarts st "[" && !strStarts st "///")

-- walk upward from a doc line at index e to the start of its contiguous
-- run of doc lines
def blockStartFrom (lines : List String) : Nat → Nat
  | 0 => 0
  | j + 1 => if isDocLine (lines.getD j "") then blockStartFrom lines j else j + 1

def findPrecAux (lines : List String) : Nat → Option (Nat × Nat)
  | 0 =>
    if isDocLine (lines.getD 0 "") then some (blockStartFrom lines 0, 0) else none
  | j + 1 =>
    if isDocLine (lines.getD (j + 1) "") then some (blockStartFrom lines (j + 1), j + 1)
    else if isBlankOrAttr (lines.getD (j + 1) "") then findPrecAux lines j
    else none

def find_preceding_xml_block (lines : List String) (idx : Nat) : Option (Nat × Nat) :=
  match idx with
  | 0 => none
  | j + 1 => findPrecAux lines j

/-! Reconciliation driver: `process_file`. -/

structure ScanState where
  lines : List String
  i : Nat
  currentType : Option String
  changed : Bool
deriving Repr

-- block_text = "".join(lines[start:end+1]); the Python lines carry their
-- trailing newlines, so the join separates consecutive lines with "\n".
-- (The final "\n" after the last line is dropped here; no substring the
-- script searches for contains a newline, so this is equivalent.)
def blockTextOf (lines : List String) (s e : Nat) : String :=
  String.intercalate "\n" ((lines.drop s).take (e + 1 - s))

-- del lines[start:end+1]; lines[i-(end-start+1):i-(end-start+1)] = block;
-- i = i - (end-start+1) + len(block); i += 1
def spliceAt (lines : List String) (i s e : Nat) (block : List String) :
    List String × Nat :=
  let d := e + 1 - s
  let deleted := lines.take s ++ lines.drop (e + 1)
  let pos := i - d
  (deleted.take pos ++ block ++ deleted.drop pos, i - d + block.length + 1)

-- lines[i:i] = block; i += len(block); i += 1
def insertAt (lines : List String) (i : Nat) (block : List String) :
    List String × Nat :=
  (lines.take i ++ block ++ lines.drop i, i + block.length + 1)

def isPlaceholderBlock (bt : String) : Bool :=
  containsSub "<summary>" bt && containsSub "/// 설명" bt

def typeSummaryOf (text : String) (t : TypeM) : String :=
  guess_summary_for_member t.name "type" text none (some t.declKind)

def typeReplaceCond (t : TypeM) (bt : String) : Bool :=
  isPlaceholderBlock bt || t.declKind == "interface"

def methodReturnHint (name : String) : Option String :=
  if strStarts name "Try" || name == "Contains" || name == "StartsWith"
      || name == "EndsWith" || strStarts name "Is" || strStarts name "Has" then
    some "조건을 만족하면 true를 반환합니다."
  else none

structure MethodDocArgs where
  summary : String
  retForDoc : String
  paramOver : Option (List (String × String))
  returnsOver : Option String
deriving Repr

def methodDocArgs (path : List String) (text : String) (currentType : Option String)
    (m : MethodM) : MethodDocArgs :=
  let is_ctor := currentType == some m.name
  let ret_for_doc := if is_ctor then "void" else m.ret
  match match_override path m.name "method" with
  | some o =>
    { summary := orElseNonEmpty o.summary
        (guess_summary_for_member m.name "method" text (some ret_for_doc) none),
      retForDoc := ret_for_doc,
      paramOver := o.params,
      returnsOver := o.returns }
  | none =>
    { summary := guess_summary_for_member m.name "method" text (some ret_for_doc) none,
      retForDoc := ret_for_doc,
      paramOver := none,
      returnsOver := none }

def methodBlockOf (path : List String) (text : String) (currentType : Option String)
    (m : MethodM) : List String :=
  let a := methodDocArgs path text currentType m
  build_method_block a.summary a.retForDoc m.params (methodReturnHint m.name)
    a.paramOver a.returnsOver

def methodReplaceCond (path : List String) (m : MethodM) (bt : String) : Bool :=
  (match_override path m.name "method").isSome
  || isPlaceholderBlock bt
  || ((m.name == "Convert" || m.name == "ConvertBack")
      && (containsSub "로 변환합니다." bt || containsSub "Back로 변환합니다." bt))

def propSummaryOf (text : String) (p : PropM) : String :=
  guess_summary_for_member p.name "property" text none none

def reconcileType (st : ScanState) (text : String) (t : TypeM) : ScanState :=
  let block := build_summary_block (typeSummaryOf text t)
  match find_preceding_xml_block st.lines st.i with
  | some (s, e) =>
    if typeReplaceCond t (blockTextOf st.lines s e) then
      let r := spliceAt st.lines st.i s e block
      { lines := r.1, i := r.2, currentType := some t.name, changed := true }
    else
      { st with i := st.i + 1, currentType := some t.name }
  | none =>
    let r := insertAt st.lines st.i block
    { lines := r.1, i := r.2, currentType := some t.name, changed := true }

def reconcileMethod (path : List String) (text : String) (st : ScanState)
    (m : MethodM) : ScanState :=
  let block := methodBlockOf path text st.currentType m
  match find_preceding_xml_block st.lines st.i with
  | some (s, e) =>
    if methodReplaceCond path m (blockTextOf st.lines s e) then
      let r := spliceAt st.lines st.i s e block
      { st with lines := r.1, i := r.2, changed := true }
    else
      { st with i := st.i + 1 }
  | none =>
    let r := insertAt st.lines st.i block
    { st with lines := r.1, i := r.2, changed := true }

def reconcileProp (text : String) (st : ScanState) (p : PropM) : ScanState :=
  let block := build_summary_block (propSummaryOf text p)
  match find_preceding_xml_block st.lines st.i with
  | some (s, e) =>
    if isPlaceholderBlock (blockTextOf st.lines s e) then
      let r := spliceAt st.lines st.i s e block
      { st with lines := r.1, i := r.2, changed := true }
    else
      { st with i := st.i + 1 }
  | none =>
    let r := insertAt st.lines st.i block
    { st with lines := r.1, i := r.2, changed := true }

-- one iteration of the scan loop body (only called with st.i < st.lines.length)
def procStep (path : List String) (text : String) (st : ScanState) : ScanState :=
  let line := st.lines.getD st.i ""
  match TYPE_PATTERN_match line with
  | some t => reconcileType st text t
  | none =>
    match METHOD_PATTERN_match line with
    | some m => reconcileMethod path text st m
    | none =>
      match PROPERTY_PATTERN_match line with
      | some p =>
        if line.data.any (fun c => c == '(') then { st with i := st.i + 1 }
        else reconcileProp text st p
      | none => { st with i := st.i + 1 }

-- the while loop.  Every branch of the loop body decreases
-- lines.length - i by exactly one, so fuel equal to the initial number of
-- lines runs the loop to completion.
def procGo (path : List String) (text : String) : Nat → ScanState → ScanState
  | 0, st => st
  | fuel + 1, st =>
    if st.i < st.lines.length then procGo path text fuel (procStep path text st) else st

def process_file_lines (path : List String) (lines : List String) : List String :=
  (procGo path (String.intercalate "\n" lines) lines.length
    { lines := lines, i := 0, currentType := none, changed := false }).lines

-- whole-file version: text without a trailing newline, split on "\n"
-- (Python's splitlines with keepends, written back with "".join)
def process_file (path : List String) (text : String) : String :=
  let lines := splitCh '\n' text
  String.intercalate "\n"
    ((procGo path text lines.length
      { lines := lines, i := 0, currentType := none, changed := false }).lines)

/-! Definitions supporting the claims. -/

-- the block the engine itself would build for the declaration on `line`
-- (none when the line matches no pattern, or matches the property pattern
-- but contains a parenthesis)
def builtBlockFor (path : List String) (text : String) (currentType : Option String)
    (line : String) : Option (List String) :=
  match TYPE_PATTERN_match line with
  | some t => some (build_summary_block (typeSummaryOf text t))
  | none =>
    match METHOD_PATTERN_match line with
    | some m => some (methodBlockOf path text currentType m)
    | none =>
      match PROPERTY_PATTERN_match line with
      | some p =>
        if line.data.any (fun c => c == '(') then none
        else some (build_summary_block (propSummaryOf text p))
      | none => none

-- the replace conditions actually present in the code, as one disjunction
-- over all three declaration kinds: placeholder marker, override entry,
-- interface type, or a Convert/ConvertBack method whose block contains the
-- generic conversion phrasing
def replace_allowed_code (path : List String) (lines : List String) (i s e : Nat) : Bool :=
  let line := lines.getD i ""
  let bt := blockTextOf lines s e
  isPlaceholderBlock bt
  || (match METHOD_PATTERN_match line with
      | some m => (match_override path m.name "method").isSome
      | none => false)
  || (match TYPE_PATTERN_match line with
      | some t => t.declKind == "interface"
      | none => false)
  || (match METHOD_PATTERN_match line with
      | some m =>
        (m.name == "Convert" || m.name == "ConvertBack")
        && (containsSub "로 변환합니다." bt || containsSub "Back로 변환합니다." bt)
      | none => false)

-- Modelled from the spec: the replace conditions as claim C1 states them.
-- It differs from replace_allowed_code in condition (d) only: the spec asks
-- the member to be a value-converter conversion method, i.e. it also
-- requires the file context that identifies a value converter (the cues the
-- code itself uses for that identification, IValueConverter or
-- System.Windows.Data in the file text).
def spec_replace_allowed (path : List String) (text : String) (lines : List String)
    (i s e : Nat) : Bool :=
  let line := lines.getD i ""
  let bt := blockTextOf lines s e
  isPlaceholderBlock bt
  || (match METHOD_PATTERN_match line with
      | some m => (match_override path m.name "method").isSome
      | none => false)
  || (match TYPE_PATTERN_match line with
      | some t => t.declKind == "interface"
      | none => false)
  || (match METHOD_PATTERN_match line with
      | some m =>
        (m.name == "Convert" || m.name == "ConvertBack")
        && (containsSub "IValueConverter" text || containsSub "System.Windows.Data" text)
        && (containsSub "로 변환합니다." bt || containsSub "Back로 변환합니다." bt)
      | none => false)

-- one buffer splice: a contiguous run of doc-comment lines is replaced by
-- freshly built doc-comment lines (either side may be empty)
def SpliceStep (a b : List String) : Prop :=
  ∃ (pre post del ins : List String),
    a = pre ++ del ++ post ∧ b = pre ++ ins ++ post ∧
    (∀ l ∈ del, isDocLine l = true) ∧ (∀ l ∈ ins, isDocLine l = true)

-- the edit relation generated by such splices
def Frame (a b : List String) : Prop := Relation.ReflTransGen SpliceStep a b

/-! Concrete scenario claims. -/

/-- Claim C3 (counterexample): on `public bool TryParse(string input, out int
result)` the generated returns line reads "조건을 만족하면 true를 반환합니다."
(the Try-prefix return hint short-circuits the summary-based rule), so the
returns line "성공하면 true를 반환합니다." claimed by the spec appears nowhere
in the output. -/
theorem claim_C3_counterexample :
    (process_file_lines ["Foo.cs"] ["public bool TryParse(string input, out int result)"]).getD 5 ""
      = "/// <returns>조건을 만족하면 true를 반환합니다.</returns>" ∧
    "/// <returns>성공하면 true를 반환합니다.</returns>" ∉
      process_file_lines ["Foo.cs"] ["public bool TryParse(string input, out int result)"] := by
  decide

/-- Claim C3 (amended): for the input line `public bool TryParse(string input,
out int result)` with no preceding comment block and no override, the block
generated by process_file has the summary from the "try" prefix rule, a
returns line reading exactly "조건을 만족하면 true를 반환합니다." (the generic
condition-true phrase installed by the Try-prefix return hint), and exactly two
parameter lines, one for "input" and one for "result", both with the generic
fallback parameter phrase "매개 변수". -/
theorem claim_C3_try_parse_scenario :
    process_file_lines ["Foo.cs"] ["public bool TryParse(string input, out int result)"] =
      ["/// <summary>",
       "/// Parse를(을) 시도하고, 성공 여부를 반환합니다.",
       "/// </summary>",
       "/// <param name=\"input\">매개 변수</param>",
       "/// <param name=\"result\">매개 변수</param>",
       "/// <returns>조건을 만족하면 true를 반환합니다.</returns>",
       "public bool TryParse(string input, out int result)"] := by
  decide

/-- Claim C4: the claim is right about the intent but the code does not
recognize constructors.  The constructor line `public Widget(int size)` inside
`class Widget` matches none of the three patterns (METHOD_PATTERN requires a
separate return-type token before the member name and PROPERTY_PATTERN
requires a brace and no parenthesis), so process_file inserts no block above
it: the constructor branch of the code (is_ctor) is unreachable for real
constructor syntax. -/
theorem claim_C4_ctor_not_recognized :
    METHOD_PATTERN_match "    public Widget(int size)" = none ∧
    TYPE_PATTERN_match "    public Widget(int size)" = none ∧
    PROPERTY_PATTERN_match "    public Widget(int size)" = none ∧
    process_file_lines ["Widget.cs"]
        ["public class Widget", "\x7b", "    public Widget(int size)", "\x7d"] =
      ["/// <summary>", "/// Widget를(을) 제공합니다.", "/// </summary>",
       "public class Widget", "\x7b", "    public Widget(int size)", "\x7d"] := by
  decide

/-- Claim C5 (counterexample): on `public int GetUserCount()` the generated
summary line is "/// User Count를(을) 가져옵니다." — the tokens keep their
original case and the particle is attached as "를(을)" — so the summary
"user count 를 가져옵니다." claimed by the spec appears nowhere in the
output. -/
theorem claim_C5_counterexample :
    (process_file_lines ["Foo.cs"] ["public int GetUserCount()"]).getD 1 ""
      = "/// User Count를(을) 가져옵니다." ∧
    "/// user count 를 가져옵니다." ∉
      process_file_lines ["Foo.cs"] ["public int GetUserCount()"] ∧
    "/// user count 를(을) 가져옵니다." ∉
      process_file_lines ["Foo.cs"] ["public int GetUserCount()"] := by
  decide

/-- Claim C5 (amended): for the input line `public int GetUserCount()` with no
preceding comment block and no override, the inserted block has the summary
"User Count를(을) 가져옵니다." (case-preserved tokens), a returns line with the
generic result phrase "결과를 반환합니다.", and no parameter lines. -/
theorem claim_C5_get_user_count_scenario :
    process_file_lines ["Foo.cs"] ["public int GetUserCount()"] =
      ["/// <summary>",
       "/// User Count를(을) 가져옵니다.",
       "/// </summary>",
       "/// <returns>결과를 반환합니다.</returns>",
       "public int GetUserCount()"] := by
  decide

/-- Claim C1 (counterexample): a method named Convert in a file with no
value-converter context (no IValueConverter and no System.Windows.Data in the
text) whose preceding block contains the generic conversion phrasing is
replaced by process_file — its block line disappears from the output — even
though none of the four conditions of the claim holds (the spec-side
condition, which requires converter context in clause (d), evaluates to
false). -/
theorem claim_C1_counterexample :
    find_preceding_xml_block ["/// 값으로 변환합니다.", "public string Convert(int x)"] 1
      = some (0, 0) ∧
    spec_replace_allowed ["Foo.cs"] "/// 값으로 변환합니다.\npublic string Convert(int x)"
      ["/// 값으로 변환합니다.", "public string Convert(int x)"] 1 0 0 = false ∧
    "/// 값으로 변환합니다." ∉
      process_file_lines ["Foo.cs"] ["/// 값으로 변환합니다.", "public string Convert(int x)"] := by
  decide

/-- Claim C2 (counterexample): process_file is not idempotent.  For a
ConvertBack method whose placeholder block is the only occurrence of
"IValueConverter" in the file, the first run generates the converter summary
"대상 값을 원본으로 변환합니다." and deletes the context marker with the old
block; the second run still fires the Convert/ConvertBack replace condition
(the generated summary contains "로 변환합니다.") but now regenerates without
converter context, producing the different summary "Back로 변환합니다.". -/
theorem claim_C2_counterexample :
    process_file ["Foo.cs"] (process_file ["Foo.cs"]
        "/// <summary>\n/// 설명 IValueConverter\n/// </summary>\npublic string ConvertBack(int x)")
    ≠ process_file ["Foo.cs"]
        "/// <summary>\n/// 설명 IValueConverter\n/// </summary>\npublic string ConvertBack(int x)" := by
  decide

/-! Properties of the comment block locator. -/

theorem blockStartFrom_le (lines : List String) : ∀ j, blockStartFrom lines j ≤ j := by
  intro j
  induction j with
  | zero => simp [blockStartFrom]
  | succ j ih =>
    simp only [blockStartFrom]
    split
    · omega
    · omega

theorem blockStartFrom_doc (lines : List String) :
    ∀ j, isDocLine (lines.getD j "") = true →
      ∀ k, blockStartFrom lines j ≤ k → k ≤ j → isDocLine (lines.getD k "") = true := by
  intro j
  induction j with
  | zero =>
    intro hj k h1 h2
    have : k = 0 := by omega
    subst this
    exact hj
  | succ j ih =>
    intro hj k h1 h2
    cases hdoc : isDocLine (lines.getD j "") with
    | true =>
      rw [blockStartFrom, hdoc, if_pos rfl] at h1
      rcases Nat.lt_or_ge k (j + 1) with hk | hk
      · exact ih hdoc k h1 (by omega)
      · have : k = j + 1 := by omega
        subst this
        exact hj
    | false =>
      rw [blockStartFrom, hdoc] at h1
      simp only [Bool.false_eq_true, if_false] at h1
      have : k = j + 1 := by omega
      subst this
      exact hj

theorem blockStartFrom_max (lines : List String) :
    ∀ j, blockStartFrom lines j = 0 ∨
      isDocLine (lines.getD (blockStartFrom lines j - 1) "") = false := by
  intro j
  induction j with
  | zero => left; simp [blockStartFrom]
  | succ j ih =>
    cases hdoc : isDocLine (lines.getD j "") with
    | true =>
      rw [blockStartFrom, hdoc, if_pos rfl]
      exact ih
    | false =>
      right
      rw [blockStartFrom, hdoc]
      simp only [Bool.false_eq_true, if_false, Nat.add_sub_cancel]
      exact hdoc

theorem findPrecAux_spec (lines : List String) :
    ∀ j s e, findPrecAux lines j = some (s, e) →
      e ≤ j ∧ s = blockStartFrom lines e ∧ isDocLine (lines.getD e "") = true ∧
      (∀ k, e < k → k ≤ j → isBlankOrAttr (lines.getD k "") = true) := by
  intro j
  induction j with
  | zero =>
    intro s e h
    cases hdoc : isDocLine (lines.getD 0 "") with
    | true =>
      rw [findPrecAux, hdoc, if_pos rfl] at h
      simp only [Option.some.injEq, Prod.mk.injEq] at h
      obtain ⟨hs, he⟩ := h
      subst hs
      subst he
      exact ⟨le_rfl, rfl, hdoc, by intro k h1 h2; omega⟩
    | false =>
      rw [findPrecAux, hdoc] at h
      simp at h
  | succ j ih =>
    intro s e h
    cases hdoc : isDocLine (lines.getD (j + 1) "") with
    | true =>
      rw [findPrecAux, hdoc, if_pos rfl] at h
      simp only [Option.some.injEq, Prod.mk.injEq] at h
      obtain ⟨hs, he⟩ := h
      subst hs
      subst he
      exact ⟨le_rfl, rfl, hdoc, by intro k h1 h2; omega⟩
    | false =>
      cases hba : isBlankOrAttr (lines.getD (j + 1) "") with
      | true =>
        rw [findPrecAux, hdoc, hba] at h
        simp only [Bool.false_eq_true, if_false, if_pos rfl] at h
        obtain ⟨h1, h2, h3, h4⟩ := ih s e h
        refine ⟨by omega, h2, h3, ?_⟩
        intro k hk1 hk2
        rcases Nat.lt_or_ge k (j + 1) with hk | hk
        · exact h4 k hk1 (by omega)
        · have : k = j + 1 := by omega
          subst this
          exact hba
      | false =>
        rw [findPrecAux, hdoc, hba] at h
        simp at h

/-- Claim C8: whenever find_preceding_xml_block returns a block span (s, e)
for a declaration at index idx, that span lies strictly above the declaration,
every line in it is a doc-comment line, the line directly above s is not a
doc-comment line (so the block is one contiguous run: two runs separated by a
blank line are never merged, only the lower run is returned), and every line
between the block and the declaration is blank or an attribute line. -/
theorem claim_C8_block_contiguity (lines : List String) (idx s e : Nat)
    (h : find_preceding_xml_block lines idx = some (s, e)) :
    s ≤ e ∧ e < idx ∧
    (∀ k, s ≤ k → k ≤ e → isDocLine (lines.getD k "") = true) ∧
    (s = 0 ∨ isDocLine (lines.getD (s - 1) "") = false) ∧
    (∀ k, e < k → k < idx → isBlankOrAttr (lines.getD k "") = true) := by
  match idx with
  | 0 => simp [find_preceding_xml_block] at h
  | j + 1 =>
    simp only [find_preceding_xml_block] at h
    obtain ⟨h1, h2, h3, h4⟩ := findPrecAux_spec lines j s e h
    subst h2
    refine ⟨blockStartFrom_le lines e, by omega, ?_, blockStartFrom_max lines e, ?_⟩
    · exact blockStartFrom_doc lines e h3
    · intro k hk1 hk2
      exact h4 k hk1 (by omega)

/-- Witness for claim C8: a block of two doc runs separated by a blank line,
where only the lower run (2, 2) is returned. -/
theorem claim_C8_block_contiguity_witness :
    2 ≤ 2 ∧ 2 < 3 ∧
    (∀ k, 2 ≤ k → k ≤ 2 →
      isDocLine ((["/// A", "", "/// B", "public class C"] : List String).getD k "") = true) ∧
    (2 = 0 ∨
      isDocLine ((["/// A", "", "/// B", "public class C"] : List String).getD (2 - 1) "") = false) ∧
    (∀ k, 2 < k → k < 3 →
      isBlankOrAttr ((["/// A", "", "/// B", "public class C"] : List String).getD k "") = true) :=
  claim_C8_block_contiguity ["/// A", "", "/// B", "public class C"] 3 2 2 (by decide)

/-! Splice arithmetic. -/

theorem spliceAt_result (lines B : List String) (i s e : Nat)
    (hs : s ≤ e) (he : e < i) (hi : i ≤ lines.length) :
    1 ≤ (spliceAt lines i s e B).2 ∧
    (spliceAt lines i s e B).1.drop ((spliceAt lines i s e B).2 - 1) = lines.drop i := by
  have hts : (lines.take s).length = s := by
    rw [List.length_take]
    exact Nat.min_eq_left (by omega)
  have hlen : (lines.take s ++ lines.drop (e + 1)).length = s + (lines.length - (e + 1)) := by
    rw [List.length_append, hts, List.length_drop]
  constructor
  · simp only [spliceAt]
    omega
  · simp only [spliceAt]
    have hi1 : i - (e + 1 - s) + B.length + 1 - 1 = (i - (e + 1 - s)) + B.length := by omega
    rw [hi1]
    have htp : ((lines.take s ++ lines.drop (e + 1)).take (i - (e + 1 - s))).length
        = i - (e + 1 - s) := by
      rw [List.length_take]
      exact Nat.min_eq_left (by rw [hlen]; omega)
    rw [List.drop_left' (by rw [List.length_append, htp])]
    rw [List.drop_append_eq_append_drop]
    rw [List.drop_eq_nil_of_le (by rw [hts]; omega)]
    rw [List.drop_drop]
    rw [hts]
    rw [List.nil_append]
    congr 1
    omega

theorem insertAt_result (lines B : List String) (i : Nat) (hi : i ≤ lines.length) :
    1 ≤ (insertAt lines i B).2 ∧
    (insertAt lines i B).1.drop ((insertAt lines i B).2 - 1) = lines.drop i := by
  have hts : (lines.take i).length = i := by
    rw [List.length_take]
    exact Nat.min_eq_left hi
  constructor
  · simp only [insertAt]
    omega
  · simp only [insertAt]
    have h1 : i + B.length + 1 - 1 = i + B.length := by omega
    rw [h1, List.drop_left' (by rw [List.length_append, hts])]

theorem find_prec_bounds (lines : List String) (idx s e : Nat)
    (h : find_preceding_xml_block lines idx = some (s, e)) : s ≤ e ∧ e < idx := by
  match idx with
  | 0 => simp [find_preceding_xml_block] at h
  | j + 1 =>
    simp only [find_preceding_xml_block] at h
    obtain ⟨h1, h2, _, _⟩ := findPrecAux_spec lines j s e h
    subst h2
    exact ⟨blockStartFrom_le lines e, by omega⟩

theorem find_prec_doc (lines : List String) (idx s e : Nat)
    (h : find_preceding_xml_block lines idx = some (s, e)) :
    ∀ k, s ≤ k → k ≤ e → isDocLine (lines.getD k "") = true := by
  match idx with
  | 0 => simp [find_preceding_xml_block] at h
  | j + 1 =>
    simp only [find_preceding_xml_block] at h
    obtain ⟨h1, h2, h3, _⟩ := findPrecAux_spec lines j s e h
    subst h2
    exact blockStartFrom_doc lines e h3

/-! Branch equations of the scan step. -/

theorem reconcileType_eq_replace (st : ScanState) (text : String) (t : TypeM) (s e : Nat)
    (hf : find_preceding_xml_block st.lines st.i = some (s, e))
    (hc : typeReplaceCond t (blockTextOf st.lines s e) = true) :
    reconcileType st text t =
      { lines := (spliceAt st.lines st.i s e (build_summary_block (typeSummaryOf text t))).1,
        i := (spliceAt st.lines st.i s e (build_summary_block (typeSummaryOf text t))).2,
        currentType := some t.name, changed := true } := by
  simp [reconcileType, hf, hc]

theorem reconcileType_eq_keep (st : ScanState) (text : String) (t : TypeM) (s e : Nat)
    (hf : find_preceding_xml_block st.lines st.i = some (s, e))
    (hc : typeReplaceCond t (blockTextOf st.lines s e) = false) :
    reconcileType st text t = { st with i := st.i + 1, currentType := some t.name } := by
  simp [reconcileType, hf, hc]

theorem reconcileType_eq_insert (st : ScanState) (text : String) (t : TypeM)
    (hf : find_preceding_xml_block st.lines st.i = none) :
    reconcileType st text t =
      { lines := (insertAt st.lines st.i (build_summary_block (typeSummaryOf text t))).1,
        i := (insertAt st.lines st.i (build_summary_block (typeSummaryOf text t))).2,
        currentType := some t.name, changed := true } := by
  simp [reconcileType, hf]

theorem reconcileMethod_eq_replace (path : List String) (text : String) (st : ScanState)
    (m : MethodM) (s e : Nat)
    (hf : find_preceding_xml_block st.lines st.i = some (s, e))
    (hc : methodReplaceCond path m (blockTextOf st.lines s e) = true) :
    reconcileMethod path text st m =
      { st with
        lines := (spliceAt st.lines st.i s e (methodBlockOf path text st.currentType m)).1,
        i := (spliceAt st.lines st.i s e (methodBlockOf path text st.currentType m)).2,
        changed := true } := by
  simp [reconcileMethod, hf, hc]

theorem reconcileMethod_eq_keep (path : List String) (text : String) (st : ScanState)
    (m : MethodM) (s e : Nat)
    (hf : find_preceding_xml_block st.lines st.i = some (s, e))
    (hc : methodReplaceCond path m (blockTextOf st.lines s e) = false) :
    reconcileMethod path text st m = { st with i := st.i + 1 } := by
  simp [reconcileMethod, hf, hc]

theorem reconcileMethod_eq_insert (path : List String) (text : String) (st : ScanState)
    (m : MethodM)
    (hf : find_preceding_xml_block st.lines st.i = none) :
    reconcileMethod path text st m =
      { st with
        lines := (insertAt st.lines st.i (methodBlockOf path text st.currentType m)).1,
        i := (insertAt st.lines st.i (methodBlockOf path text st.currentType m)).2,
        changed := true } := by
  simp [reconcileMethod, hf]

theorem reconcileProp_eq_replace (text : String) (st : ScanState) (p : PropM) (s e : Nat)
    (hf : find_preceding_xml_block st.lines st.i = some (s, e))
    (hc : isPlaceholderBlock (blockTextOf st.lines s e) = true) :
    reconcileProp text st p =
      { st with
        lines := (spliceAt st.lines st.i s e (build_summary_block (propSummaryOf text p))).1,
        i := (spliceAt st.lines st.i s e (build_summary_block (propSummaryOf text p))).2,
        changed := true } := by
  simp [reconcileProp, hf, hc]

theorem reconcileProp_eq_keep (text : String) (st : ScanState) (p : PropM) (s e : Nat)
    (hf : find_preceding_xml_block st.lines st.i = some (s, e))
    (hc : isPlaceholderBlock (blockTextOf st.lines s e) = false) :
    reconcileProp text st p = { st with i := st.i + 1 } := by
  simp [reconcileProp, hf, hc]

theorem reconcileProp_eq_insert (text : String) (st : ScanState) (p : PropM)
    (hf : find_preceding_xml_block st.lines st.i = none) :
    reconcileProp text st p =
      { st with
        lines := (insertAt st.lines st.i (build_summary_block (propSummaryOf text p))).1,
        i := (insertAt st.lines st.i (build_summary_block (propSummaryOf text p))).2,
        changed := true } := by
  simp [reconcileProp, hf]

theorem procStep_eq_type (path : List String) (text : String) (st : ScanState) (t : TypeM)
    (ht : TYPE_PATTERN_match (st.lines.getD st.i "") = some t) :
    procStep path text st = reconcileType st text t := by
  simp only [procStep]
  rw [ht]

theorem procStep_eq_method (path : List String) (text : String) (st : ScanState) (m : MethodM)
    (ht : TYPE_PATTERN_match (st.lines.getD st.i "") = none)
    (hm : METHOD_PATTERN_match (st.lines.getD st.i "") = some m) :
    procStep path text st = reconcileMethod path text st m := by
  simp only [procStep]
  rw [ht, hm]

theorem procStep_eq_prop (path : List String) (text : String) (st : ScanState) (p : PropM)
    (ht : TYPE_PATTERN_match (st.lines.getD st.i "") = none)
    (hm : METHOD_PATTERN_match (st.lines.getD st.i "") = none)
    (hp : PROPERTY_PATTERN_match (st.lines.getD st.i "") = some p)
    (hpar : (st.lines.getD st.i "").data.any (fun c => c == '(') = false) :
    procStep path text st = reconcileProp text st p := by
  simp only [procStep]
  rw [ht, hm, hp]
  simp at hpar
  simp
  intro hmem
  exact absurd rfl (hpar '(' hmem)

theorem procStep_eq_prop_paren (path : List String) (text : String) (st : ScanState) (p : PropM)
    (ht : TYPE_PATTERN_match (st.lines.getD st.i "") = none)
    (hm : METHOD_PATTERN_match (st.lines.getD st.i "") = none)
    (hp : PROPERTY_PATTERN_match (st.lines.getD st.i "") = some p)
    (hpar : (st.lines.getD st.i "").data.any (fun c => c == '(') = true) :
    procStep path text st = { st with i := st.i + 1 } := by
  simp only [procStep]
  rw [ht, hm, hp]
  simp at hpar
  simp
  intro hmem
  exact absurd hpar hmem

theorem procStep_eq_skip (path : List String) (text : String) (st : ScanState)
    (ht : TYPE_PATTERN_match (st.lines.getD st.i "") = none)
    (hm : METHOD_PATTERN_match (st.lines.getD st.i "") = none)
    (hp : PROPERTY_PATTERN_match (st.lines.getD st.i "") = none) :
    procStep path text st = { st with i := st.i + 1 } := by
  simp only [procStep]
  rw [ht, hm, hp]

/-- Claim C9: every iteration of the scan loop either leaves the buffer
unchanged and advances the cursor by one, or splices and sets the cursor so
that the suffix of the buffer from position cursor - 1 on is exactly the
original buffer from the declaration line on: scanning resumes at the line
immediately after the declaration that triggered the splice, no line is
processed twice and no line is skipped, regardless of the net change in line
count. -/
theorem claim_C9_cursor_resume (path : List String) (text : String) (st : ScanState)
    (h : st.i < st.lines.length) :
    1 ≤ (procStep path text st).i ∧
    (procStep path text st).lines.drop ((procStep path text st).i - 1) =
      st.lines.drop st.i := by
  cases ht : TYPE_PATTERN_match (st.lines.getD st.i "") with
  | some t =>
    rw [procStep_eq_type path text st t ht]
    cases hf : find_preceding_xml_block st.lines st.i with
    | some se =>
      obtain ⟨s, e⟩ := se
      obtain ⟨hs, he⟩ := find_prec_bounds st.lines st.i s e hf
      cases hc : typeReplaceCond t (blockTextOf st.lines s e) with
      | true =>
        rw [reconcileType_eq_replace st text t s e hf hc]
        exact spliceAt_result st.lines _ st.i s e hs he (le_of_lt h)
      | false =>
        rw [reconcileType_eq_keep st text t s e hf hc]
        exact ⟨Nat.succ_le_succ (Nat.zero_le st.i), by simp⟩
    | none =>
      rw [reconcileType_eq_insert st text t hf]
      exact insertAt_result st.lines _ st.i (le_of_lt h)
  | none =>
    cases hm : METHOD_PATTERN_match (st.lines.getD st.i "") with
    | some m =>
      rw [procStep_eq_method path text st m ht hm]
      cases hf : find_preceding_xml_block st.lines st.i with
      | some se =>
        obtain ⟨s, e⟩ := se
        obtain ⟨hs, he⟩ := find_prec_bounds st.lines st.i s e hf
        cases hc : methodReplaceCond path m (blockTextOf st.lines s e) with
        | true =>
          rw [reconcileMethod_eq_replace path text st m s e hf hc]
          exact spliceAt_result st.lines _ st.i s e hs he (le_of_lt h)
        | false =>
          rw [reconcileMethod_eq_keep path text st m s e hf hc]
          exact ⟨Nat.succ_le_succ (Nat.zero_le st.i), by simp⟩
      | none =>
        rw [reconcileMethod_eq_insert path text st m hf]
        exact insertAt_result st.lines _ st.i (le_of_lt h)
    | none =>
      cases hp : PROPERTY_PATTERN_match (st.lines.getD st.i "") with
      | some p =>
        cases hpar : (st.lines.getD st.i "").data.any (fun c => c == '(') with
        | true =>
          rw [procStep_eq_prop_paren path text st p ht hm hp hpar]
          exact ⟨Nat.succ_le_succ (Nat.zero_le st.i), by simp⟩
        | false =>
          rw [procStep_eq_prop path text st p ht hm hp hpar]
          cases hf : find_preceding_xml_block st.lines st.i with
          | some se =>
            obtain ⟨s, e⟩ := se
            obtain ⟨hs, he⟩ := find_prec_bounds st.lines st.i s e hf
            cases hc : isPlaceholderBlock (blockTextOf st.lines s e) with
            | true =>
              rw [reconcileProp_eq_replace text st p s e hf hc]
              exact spliceAt_result st.lines _ st.i s e hs he (le_of_lt h)
            | false =>
              rw [reconcileProp_eq_keep text st p s e hf hc]
              exact ⟨Nat.succ_le_succ (Nat.zero_le st.i), by simp⟩
          | none =>
            rw [reconcileProp_eq_insert text st p hf]
            exact insertAt_result st.lines _ st.i (le_of_lt h)
      | none =>
        rw [procStep_eq_skip path text st ht hm hp]
        exact ⟨Nat.succ_le_succ (Nat.zero_le st.i), by simp⟩

/-- Witness for claim C9 at a concrete scan state (an insertion splice). -/
theorem claim_C9_cursor_resume_witness :
    (0 : Nat) < ([ "public int GetUserCount()" ] : List String).length ∧
    (1 ≤ (procStep ["Foo.cs"] "public int GetUserCount()"
        { lines := ["public int GetUserCount()"], i := 0, currentType := none,
          changed := false }).i ∧
      (procStep ["Foo.cs"] "public int GetUserCount()"
        { lines := ["public int GetUserCount()"], i := 0, currentType := none,
          changed := false }).lines.drop
        ((procStep ["Foo.cs"] "public int GetUserCount()"
          { lines := ["public int GetUserCount()"], i := 0, currentType := none,
            changed := false }).i - 1) =
      ([ "public int GetUserCount()" ] : List String).drop 0) :=
  ⟨by decide,
   claim_C9_cursor_resume ["Foo.cs"] "public int GetUserCount()"
     { lines := ["public int GetUserCount()"], i := 0, currentType := none,
       changed := false } (by decide)⟩

/-! Frame property: the scan only deletes located doc blocks and inserts
freshly built doc lines. -/

theorem build_summary_block_doc (s : String) :
    ∀ l ∈ build_summary_block s, isDocLine l = true := by
  intro l hl
  simp only [build_summary_block, List.mem_cons, List.not_mem_nil, or_false] at hl
  rcases hl with rfl | rfl | rfl
  · rfl
  · rfl
  · rfl

theorem paramLineOf_doc (po : Option (List (String × String))) (p l : String)
    (h : paramLineOf po p = some l) : isDocLine l = true := by
  simp only [paramLineOf] at h
  split at h
  · exact absurd h (by simp)
  · split at h
    · exact absurd h (by simp)
    · simp only [Option.some.injEq] at h
      rw [← h]
      rfl

theorem build_method_block_doc (a b c : String) (rh : Option String)
    (po : Option (List (String × String))) (ro : Option String) :
    ∀ l ∈ build_method_block a b c rh po ro, isDocLine l = true := by
  intro l hl
  simp only [build_method_block, List.append_assoc, List.mem_append] at hl
  rcases hl with hl | hl | hl
  · exact build_summary_block_doc a l hl
  · obtain ⟨p, _, hf⟩ := List.mem_filterMap.mp hl
    exact paramLineOf_doc po p l hf
  · split at hl
    · simp only [List.mem_singleton] at hl
      rw [hl]
      rfl
    · exact absurd hl (by simp)

theorem seg_doc (lines : List String) (s e idx : Nat)
    (h : find_preceding_xml_block lines idx = some (s, e)) :
    ∀ x ∈ (lines.drop s).take (e + 1 - s), isDocLine x = true := by
  intro x hx
  obtain ⟨m, hm⟩ := List.mem_iff_getElem?.mp hx
  have hlen : m < ((lines.drop s).take (e + 1 - s)).length := by
    rcases Nat.lt_or_ge m ((lines.drop s).take (e + 1 - s)).length with hlt | hge
    · exact hlt
    · rw [List.getElem?_eq_none hge] at hm
      exact absurd hm (by simp)
  have hmd : m < e + 1 - s := by
    simp only [List.length_take] at hlen
    have h2 := min_le_left (e + 1 - s) (lines.drop s).length
    omega
  rw [List.getElem?_take_of_lt hmd, List.getElem?_drop] at hm
  have hx2 : lines.getD (s + m) "" = x := by
    rw [List.getD_eq_getElem?_getD, hm]
    rfl
  rw [← hx2]
  exact find_prec_doc lines idx s e h (s + m) (by omega) (by omega)

theorem frame_single_insert (lines B : List String) (i : Nat)
    (hdoc : ∀ l ∈ B, isDocLine l = true) :
    Frame lines (lines.take i ++ B ++ lines.drop i) := by
  apply Relation.ReflTransGen.single
  refine ⟨lines.take i, lines.drop i, [], B, ?_, ?_, ?_, hdoc⟩
  · simp [List.take_append_drop]
  · rfl
  · simp

theorem frame_replace (lines B : List String) (i s e : Nat)
    (hse : s ≤ e) (hei : e < i) (hil : i ≤ lines.length)
    (hdel : ∀ x ∈ (lines.drop s).take (e + 1 - s), isDocLine x = true)
    (hins : ∀ l ∈ B, isDocLine l = true) :
    Frame lines ((spliceAt lines i s e B).1) := by
  have hdecomp : lines = lines.take s ++ (lines.drop s).take (e + 1 - s) ++ lines.drop (e + 1) := by
    have h1 : lines.drop (e + 1) = (lines.drop s).drop (e + 1 - s) := by
      rw [List.drop_drop]
      congr 1
      omega
    rw [List.append_assoc, h1, List.take_append_drop, List.take_append_drop]
  have step1 : SpliceStep lines (lines.take s ++ lines.drop (e + 1)) := by
    refine ⟨lines.take s, lines.drop (e + 1), (lines.drop s).take (e + 1 - s), [], ?_, ?_, hdel, ?_⟩
    · exact hdecomp
    · simp
    · simp
  have step2 : SpliceStep (lines.take s ++ lines.drop (e + 1)) ((spliceAt lines i s e B).1) := by
    refine ⟨(lines.take s ++ lines.drop (e + 1)).take (i - (e + 1 - s)),
      (lines.take s ++ lines.drop (e + 1)).drop (i - (e + 1 - s)), [], B, ?_, rfl, ?_, hins⟩
    · simp [List.take_append_drop]
    · simp
  exact Relation.ReflTransGen.head step1 (Relation.ReflTransGen.single step2)

theorem procStep_frame (path : List String) (text : String) (st : ScanState)
    (h : st.i < st.lines.length) :
    Frame st.lines (procStep path text st).lines := by
  cases ht : TYPE_PATTERN_match (st.lines.getD st.i "") with
  | some t =>
    rw [procStep_eq_type path text st t ht]
    cases hf : find_preceding_xml_block st.lines st.i with
    | some se =>
      obtain ⟨s, e⟩ := se
      obtain ⟨hs, he⟩ := find_prec_bounds st.lines st.i s e hf
      cases hc : typeReplaceCond t (blockTextOf st.lines s e) with
      | true =>
        rw [reconcileType_eq_replace st text t s e hf hc]
        exact frame_replace st.lines _ st.i s e hs he (le_of_lt h)
          (seg_doc st.lines s e st.i hf) (build_summary_block_doc _)
      | false =>
        rw [reconcileType_eq_keep st text t s e hf hc]
        exact Relation.ReflTransGen.refl
    | none =>
      rw [reconcileType_eq_insert st text t hf]
      exact frame_single_insert st.lines _ st.i (build_summary_block_doc _)
  | none =>
    cases hm : METHOD_PATTERN_match (st.lines.getD st.i "") with
    | some m =>
      rw [procStep_eq_method path text st m ht hm]
      cases hf : find_preceding_xml_block st.lines st.i with
      | some se =>
        obtain ⟨s, e⟩ := se
        obtain ⟨hs, he⟩ := find_prec_bounds st.lines st.i s e hf
        cases hc : methodReplaceCond path m (blockTextOf st.lines s e) with
        | true =>
          rw [reconcileMethod_eq_replace path text st m s e hf hc]
          exact frame_replace st.lines _ st.i s e hs he (le_of_lt h)
            (seg_doc st.lines s e st.i hf) (build_method_block_doc _ _ _ _ _ _)
        | false =>
          rw [reconcileMethod_eq_keep path text st m s e hf hc]
          exact Relation.ReflTransGen.refl
      | none =>
        rw [reconcileMethod_eq_insert path text st m hf]
        exact frame_single_insert st.lines _ st.i (build_method_block_doc _ _ _ _ _ _)
    | none =>
      cases hp : PROPERTY_PATTERN_match (st.lines.getD st.i "") with
      | some p =>
        cases hpar : (st.lines.getD st.i "").data.any (fun c => c == '(') with
        | true =>
          rw [procStep_eq_prop_paren path text st p ht hm hp hpar]
          exact Relation.ReflTransGen.refl
        | false =>
          rw [procStep_eq_prop path text st p ht hm hp hpar]
          cases hf : find_preceding_xml_block st.lines st.i with
          | some se =>
            obtain ⟨s, e⟩ := se
            obtain ⟨hs, he⟩ := find_prec_bounds st.lines st.i s e hf
            cases hc : isPlaceholderBlock (blockTextOf st.lines s e) with
            | true =>
              rw [reconcileProp_eq_replace text st p s e hf hc]
              exact frame_replace st.lines _ st.i s e hs he (le_of_lt h)
                (seg_doc st.lines s e st.i hf) (build_summary_block_doc _)
            | false =>
              rw [reconcileProp_eq_keep text st p s e hf hc]
              exact Relation.ReflTransGen.refl
          | none =>
            rw [reconcileProp_eq_insert text st p hf]
            exact frame_single_insert st.lines _ st.i (build_summary_block_doc _)
      | none =>
        rw [procStep_eq_skip path text st ht hm hp]
        exact Relation.ReflTransGen.refl

theorem procGo_frame (path : List String) (text : String) :
    ∀ fuel (st : ScanState), Frame st.lines (procGo path text fuel st).lines := by
  intro fuel
  induction fuel with
  | zero =>
    intro st
    exact Relation.ReflTransGen.refl
  | succ fuel ih =>
    intro st
    rw [procGo]
    by_cases h : st.i < st.lines.length
    · rw [if_pos h]
      exact Relation.ReflTransGen.trans (procStep_frame path text st h)
        (ih (procStep path text st))
    · rw [if_neg h]
      exact Relation.ReflTransGen.refl

/-- Claim C10: the only edits process_file performs are splices that delete
contiguous runs of doc-comment lines (the located preceding blocks) and
insert freshly built doc-comment lines: the output buffer is reachable from
the input buffer by such splices alone, so every original line not deleted
as part of a replaced comment block appears unchanged and in its original
relative order, and every inserted line begins (after leading whitespace)
with "///". -/
theorem claim_C10_frame (path : List String) (lines : List String) :
    Frame lines (process_file_lines path lines) := by
  unfold process_file_lines
  exact procGo_frame path (String.intercalate "\n" lines) lines.length
    { lines := lines, i := 0, currentType := none, changed := false }

/-- Witness for claim C10 at a concrete file. -/
theorem claim_C10_frame_witness :
    Frame ["public int GetUserCount()"]
      (process_file_lines ["Foo.cs"] ["public int GetUserCount()"]) :=
  claim_C10_frame ["Foo.cs"] ["public int GetUserCount()"]

/-- Claim C1 (amended): for every scan state whose declaration at the cursor
has a preceding comment block, the block is replaced only if at least one of
these holds: the block text contains the placeholder marker ("<summary>"
together with "/// 설명"), an override entry matches this member, the
declaration is an interface type, or the member is a method named
Convert/ConvertBack whose existing block contains the generic conversion
phrasing — regardless of value-converter file context, which the code does
not consult here (the amendment forced by the counterexample).  When none of
these holds the step leaves the whole buffer, hence the block, unchanged. -/
theorem claim_C1_replace_only_if (path : List String) (text : String) (st : ScanState)
    (s e : Nat)
    (hf : find_preceding_xml_block st.lines st.i = some (s, e))
    (hc : replace_allowed_code path st.lines st.i s e = false) :
    (procStep path text st).lines = st.lines ∧ (procStep path text st).i = st.i + 1 := by
  cases ht : TYPE_PATTERN_match (st.lines.getD st.i "") with
  | some t =>
    rw [procStep_eq_type path text st t ht]
    simp only [replace_allowed_code] at hc
    rw [ht] at hc
    simp only [Bool.or_eq_false_iff] at hc
    obtain ⟨⟨⟨hpl, _⟩, hint⟩, _⟩ := hc
    have hcond : typeReplaceCond t (blockTextOf st.lines s e) = false := by
      simp only [typeReplaceCond, Bool.or_eq_false_iff]
      exact ⟨hpl, by simpa using hint⟩
    rw [reconcileType_eq_keep st text t s e hf hcond]
    exact ⟨rfl, rfl⟩
  | none =>
    cases hm : METHOD_PATTERN_match (st.lines.getD st.i "") with
    | some m =>
      rw [procStep_eq_method path text st m ht hm]
      simp only [replace_allowed_code] at hc
      rw [ht, hm] at hc
      simp only [Bool.or_eq_false_iff] at hc
      obtain ⟨⟨⟨hpl, hov⟩, _⟩, hconv⟩ := hc
      have hcond : methodReplaceCond path m (blockTextOf st.lines s e) = false := by
        simp only [methodReplaceCond, Bool.or_eq_false_iff]
        exact ⟨⟨by simpa using hov, hpl⟩, by simpa using hconv⟩
      rw [reconcileMethod_eq_keep path text st m s e hf hcond]
      exact ⟨rfl, rfl⟩
    | none =>
      simp only [replace_allowed_code, Bool.or_eq_false_iff] at hc
      obtain ⟨⟨⟨hpl, _⟩, _⟩, _⟩ := hc
      cases hp : PROPERTY_PATTERN_match (st.lines.getD st.i "") with
      | some p =>
        cases hpar : (st.lines.getD st.i "").data.any (fun c => c == '(') with
        | true =>
          rw [procStep_eq_prop_paren path text st p ht hm hp hpar]
          exact ⟨rfl, rfl⟩
        | false =>
          rw [procStep_eq_prop path text st p ht hm hp hpar]
          rw [reconcileProp_eq_keep text st p s e hf hpl]
          exact ⟨rfl, rfl⟩
      | none =>
        rw [procStep_eq_skip path text st ht hm hp]
        exact ⟨rfl, rfl⟩

/-- Witness for claim C1 (amended): an author-written block above a method
with no override is left untouched. -/
theorem claim_C1_replace_only_if_witness :
    find_preceding_xml_block
      (({ lines := ["/// hand-written docs", "public int GetUserCount()"], i := 1,
          currentType := none, changed := false } : ScanState)).lines 1 = some (0, 0) ∧
    replace_allowed_code ["Foo.cs"]
      ["/// hand-written docs", "public int GetUserCount()"] 1 0 0 = false ∧
    ((procStep ["Foo.cs"] "/// hand-written docs\npublic int GetUserCount()"
        { lines := ["/// hand-written docs", "public int GetUserCount()"], i := 1,
          currentType := none, changed := false }).lines =
      ["/// hand-written docs", "public int GetUserCount()"] ∧
     (procStep ["Foo.cs"] "/// hand-written docs\npublic int GetUserCount()"
        { lines := ["/// hand-written docs", "public int GetUserCount()"], i := 1,
          currentType := none, changed := false }).i = 1 + 1) :=
  ⟨by decide, by decide,
   claim_C1_replace_only_if ["Foo.cs"] "/// hand-written docs\npublic int GetUserCount()"
     { lines := ["/// hand-written docs", "public int GetUserCount()"], i := 1,
       currentType := none, changed := false } 0 0 (by decide) (by decide)⟩

/-! Override precedence. -/

theorem build_method_block_getD1 (s rt ps : String) (rh : Option String)
    (po : Option (List (String × String))) (ro : Option String) :
    (build_method_block s rt ps rh po ro).getD 1 "" = "/// " ++ s := rfl

/-- Claim C7: for every method declaration with a matching override entry and
an existing preceding comment block that is not a placeholder block, the scan
step replaces the block (the buffer becomes the splice of the built block
over the located block span), and the new block's summary line is exactly
"/// " followed by the override entry's summary text — the override summary
verbatim. -/
theorem claim_C7_override_precedence (path : List String) (text : String)
    (st : ScanState) (m : MethodM) (s e : Nat) (o : OvEntry) (sm : String)
    (ht : TYPE_PATTERN_match (st.lines.getD st.i "") = none)
    (hm : METHOD_PATTERN_match (st.lines.getD st.i "") = some m)
    (hf : find_preceding_xml_block st.lines st.i = some (s, e))
    (ho : match_override path m.name "method" = some o)
    (hsm : o.summary = some sm)
    (hne : (sm == "") = false)
    (hnpl : isPlaceholderBlock (blockTextOf st.lines s e) = false) :
    (procStep path text st).lines =
      (spliceAt st.lines st.i s e (methodBlockOf path text st.currentType m)).1 ∧
    (methodBlockOf path text st.currentType m).getD 1 "" = "/// " ++ sm := by
  have hcond : methodReplaceCond path m (blockTextOf st.lines s e) = true := by
    simp [methodReplaceCond, ho]
  rw [procStep_eq_method path text st m ht hm,
    reconcileMethod_eq_replace path text st m s e hf hcond]
  refine ⟨rfl, ?_⟩
  have hargs : (methodDocArgs path text st.currentType m).summary = sm := by
    simp only [methodDocArgs]
    rw [ho]
    simp [orElseNonEmpty, hsm, hne]
  calc (methodBlockOf path text st.currentType m).getD 1 ""
      = "/// " ++ (methodDocArgs path text st.currentType m).summary :=
        build_method_block_getD1 _ _ _ _ _ _
    _ = "/// " ++ sm := by rw [hargs]

/-- Witness for claim C7: GetColorName in Helpers/ColorHelper.cs with an
author block that is not a placeholder. -/
theorem claim_C7_override_precedence_witness :
    (procStep ["Helpers", "ColorHelper.cs"]
        "/// old docs\npublic string GetColorName(Color color) \x7b"
        { lines := ["/// old docs", "public string GetColorName(Color color) \x7b"],
          i := 1, currentType := none, changed := false }).lines =
      (spliceAt ["/// old docs", "public string GetColorName(Color color) \x7b"] 1 0 0
        (methodBlockOf ["Helpers", "ColorHelper.cs"]
          "/// old docs\npublic string GetColorName(Color color) \x7b" none
          { ret := "string", name := "GetColorName", params := "Color color" })).1 ∧
    (methodBlockOf ["Helpers", "ColorHelper.cs"]
        "/// old docs\npublic string GetColorName(Color color) \x7b" none
        { ret := "string", name := "GetColorName", params := "Color color" }).getD 1 ""
      = "/// " ++ "입력 색상과 일치하는 미리 정의된 색상 이름을 반환합니다. 없으면 색상 문자열을 반환합니다." :=
  claim_C7_override_precedence ["Helpers", "ColorHelper.cs"]
    "/// old docs\npublic string GetColorName(Color color) \x7b"
    { lines := ["/// old docs", "public string GetColorName(Color color) \x7b"],
      i := 1, currentType := none, changed := false }
    { ret := "string", name := "GetColorName", params := "Color color" } 0 0
    { summary := some "입력 색상과 일치하는 미리 정의된 색상 이름을 반환합니다. 없으면 색상 문자열을 반환합니다.",
      params := some [("color", "색상 값")],
      returns := some "색상 이름 또는 색상 문자열" }
    "입력 색상과 일치하는 미리 정의된 색상 이름을 반환합니다. 없으면 색상 문자열을 반환합니다."
    (by decide) (by decide) (by decide) (by decide) (by decide) (by decide) (by decide)

/-! A block the engine itself built, sitting immediately above its
declaration, is never changed by a scan step. -/

theorem build_summary_block_length (s : String) :
    (build_summary_block s).length = 3 := rfl

theorem build_method_block_length (a b c : String) (rh : Option String)
    (po : Option (List (String × String))) (ro : Option String) :
    3 ≤ (build_method_block a b c rh po ro).length := by
  simp only [build_method_block, build_summary_block, List.append_assoc, List.length_append]
  simp

theorem builtBlockFor_doc (path : List String) (text : String) (ct : Option String)
    (line : String) (B : List String)
    (hb : builtBlockFor path text ct line = some B) :
    (∀ l ∈ B, isDocLine l = true) ∧ 1 ≤ B.length := by
  simp only [builtBlockFor] at hb
  split at hb
  · simp only [Option.some.injEq] at hb
    subst hb
    exact ⟨build_summary_block_doc _, by simp [build_summary_block]⟩
  · split at hb
    · simp only [Option.some.injEq] at hb
      subst hb
      rename_i m hm2
      refine ⟨fun l hl => ?_, ?_⟩
      · simp only [methodBlockOf] at hl
        exact build_method_block_doc _ _ _ _ _ _ l hl
      · simp only [methodBlockOf]
        have := build_method_block_length (methodDocArgs path text ct m).summary
          (methodDocArgs path text ct m).retForDoc m.params (methodReturnHint m.name)
          (methodDocArgs path text ct m).paramOver (methodDocArgs path text ct m).returnsOver
        omega
    · split at hb
      · split at hb
        · exact absurd hb (by simp)
        · simp only [Option.some.injEq] at hb
          subst hb
          exact ⟨build_summary_block_doc _, by simp [build_summary_block]⟩
      · exact absurd hb (by simp)

theorem blockStart_of_run (lines : List String) :
    ∀ m j, m ≤ j →
      (∀ k, j - m ≤ k → k ≤ j → isDocLine (lines.getD k "") = true) →
      (j - m = 0 ∨ isDocLine (lines.getD (j - m - 1) "") = false) →
      blockStartFrom lines j = j - m := by
  intro m
  induction m with
  | zero =>
    intro j _ _ htop
    cases j with
    | zero => simp [blockStartFrom]
    | succ k =>
      rcases htop with h0 | hnd
      · omega
      · simp only [Nat.sub_zero, Nat.add_sub_cancel] at hnd ⊢
        rw [blockStartFrom, hnd]
        simp
  | succ m ih =>
    intro j hm hdoc htop
    cases j with
    | zero => omega
    | succ k =>
      have hdk : isDocLine (lines.getD k "") = true := hdoc k (by omega) (by omega)
      rw [blockStartFrom, hdk, if_pos rfl]
      have e1 : k + 1 - (m + 1) = k - m := by omega
      rw [e1]
      apply ih k (by omega)
      · intro k2 h1 h2
        exact hdoc k2 (by omega) (by omega)
      · rcases htop with h0 | hnd
        · left; omega
        · right
          have e2 : k + 1 - (m + 1) - 1 = k - m - 1 := by omega
          rw [e2] at hnd
          exact hnd

theorem find_prec_of_adjacent_block (lines : List String) (i n : Nat)
    (hn : 1 ≤ n) (hni : n ≤ i)
    (hdoc : ∀ k, i - n ≤ k → k ≤ i - 1 → isDocLine (lines.getD k "") = true)
    (htop : i = n ∨ isDocLine (lines.getD (i - n - 1) "") = false) :
    find_preceding_xml_block lines i = some (i - n, i - 1) := by
  cases i with
  | zero => omega
  | succ j =>
    simp only [find_preceding_xml_block, Nat.add_sub_cancel]
    have hdj : isDocLine (lines.getD j "") = true := hdoc j (by omega) (by omega)
    cases j with
    | zero =>
      rw [findPrecAux, hdj, if_pos rfl]
      have : n = 1 := by omega
      subst this
      simp [blockStartFrom]
    | succ k =>
      rw [findPrecAux, hdj, if_pos rfl]
      have hbs : blockStartFrom lines (k + 1) = (k + 1) - (n - 1) := by
        apply blockStart_of_run lines (n - 1) (k + 1) (by omega)
        · intro k2 h1 h2
          exact hdoc k2 (by omega) (by omega)
        · rcases htop with h0 | hnd
          · left; omega
          · right
            have e2 : k + 1 - (n - 1) - 1 = k + 1 + 1 - n - 1 := by omega
            rw [e2]
            exact hnd
      rw [hbs]
      have : k + 1 - (n - 1) = k + 1 + 1 - n := by omega
      rw [this]

theorem block_doc_at (lines B : List String) (i : Nat)
    (hb1 : 1 ≤ B.length)
    (hlen : B.length ≤ i) (hil : i ≤ lines.length)
    (hdecomp : lines = lines.take (i - B.length) ++ B ++ lines.drop i)
    (hdoc : ∀ l ∈ B, isDocLine l = true) :
    ∀ k, i - B.length ≤ k → k ≤ i - 1 → isDocLine (lines.getD k "") = true := by
  intro k h1 h2
  have htl : (lines.take (i - B.length)).length = i - B.length := by
    rw [List.length_take]
    exact Nat.min_eq_left (by omega)
  have hkb : k - (i - B.length) < B.length := by omega
  have hget : lines.getD k "" = B.getD (k - (i - B.length)) "" := by
    conv_lhs => rw [hdecomp]
    rw [List.getD_eq_getElem?_getD, List.getD_eq_getElem?_getD]
    rw [List.getElem?_append_left (by rw [List.length_append, htl]; omega)]
    rw [List.getElem?_append_right (by rw [htl]; omega)]
    rw [htl]
  rw [hget]
  rw [List.getD_eq_getElem?_getD, List.getElem?_eq_getElem hkb]
  exact hdoc _ (List.getElem_mem hkb)

theorem spliceAt_self (lines B : List String) (i : Nat)
    (h1 : B.length ≤ i) (h2 : 1 ≤ B.length) (h3 : i ≤ lines.length)
    (hdecomp : lines = lines.take (i - B.length) ++ B ++ lines.drop i) :
    (spliceAt lines i (i - B.length) (i - 1) B).1 = lines ∧
    (spliceAt lines i (i - B.length) (i - 1) B).2 = i + 1 := by
  have htl : (lines.take (i - B.length)).length = i - B.length := by
    rw [List.length_take]
    exact Nat.min_eq_left (by omega)
  have he1 : (i - 1) + 1 = i := by omega
  have g1 : i - (i - B.length) = B.length := by omega
  have hta : (lines.take (i - B.length) ++ lines.drop i).take (i - B.length)
      = lines.take (i - B.length) := List.take_left' htl
  have hdr : (lines.take (i - B.length) ++ lines.drop i).drop (i - B.length)
      = lines.drop i := List.drop_left' htl
  constructor
  · simp only [spliceAt, he1, g1]
    rw [hta, hdr]
    exact hdecomp.symm
  · simp only [spliceAt, he1, g1]
    omega

/-- Claim C2 (amended): whole-file idempotence fails (see the counterexample:
a first run can delete the only occurrence of a value-converter context
marker, after which the second run rewrites a Convert/ConvertBack block with a
different summary).  What does hold, and is the content of the idempotence
argument, is that a scan step never changes a buffer at a declaration whose
preceding block is exactly the block the engine itself builds for it under
the current file text and path, sitting immediately above the declaration:
the step either skips the block (no replace condition fires) or replaces it
by identical lines at the same position, and in both cases the buffer is
unchanged and the cursor moves to the line after the declaration. -/
theorem claim_C2_step_preserves_own_block (path : List String) (text : String)
    (st : ScanState) (B : List String)
    (hb : builtBlockFor path text st.currentType (st.lines.getD st.i "") = some B)
    (hlen : B.length ≤ st.i)
    (hil : st.i ≤ st.lines.length)
    (hdecomp : st.lines = st.lines.take (st.i - B.length) ++ B ++ st.lines.drop st.i)
    (htop : st.i = B.length ∨ isDocLine (st.lines.getD (st.i - B.length - 1) "") = false) :
    (procStep path text st).lines = st.lines ∧ (procStep path text st).i = st.i + 1 := by
  obtain ⟨hdoc, hb1⟩ := builtBlockFor_doc path text st.currentType _ B hb
  have hdocat := block_doc_at st.lines B st.i hb1 hlen hil hdecomp hdoc
  have hf : find_preceding_xml_block st.lines st.i = some (st.i - B.length, st.i - 1) :=
    find_prec_of_adjacent_block st.lines st.i B.length hb1 hlen hdocat htop
  have hsplice := spliceAt_self st.lines B st.i hlen hb1 hil hdecomp
  cases ht : TYPE_PATTERN_match (st.lines.getD st.i "") with
  | some t =>
    have hB : build_summary_block (typeSummaryOf text t) = B := by
      simp only [builtBlockFor] at hb
      rw [ht] at hb
      simpa using hb
    rw [procStep_eq_type path text st t ht]
    cases hc : typeReplaceCond t (blockTextOf st.lines (st.i - B.length) (st.i - 1)) with
    | false =>
      rw [reconcileType_eq_keep st text t _ _ hf hc]
      exact ⟨rfl, rfl⟩
    | true =>
      rw [reconcileType_eq_replace st text t _ _ hf hc]
      exact ⟨by rw [hB]; exact hsplice.1, by rw [hB]; exact hsplice.2⟩
  | none =>
    cases hm : METHOD_PATTERN_match (st.lines.getD st.i "") with
    | some m =>
      have hB : methodBlockOf path text st.currentType m = B := by
        simp only [builtBlockFor] at hb
        rw [ht, hm] at hb
        simpa using hb
      rw [procStep_eq_method path text st m ht hm]
      cases hc : methodReplaceCond path m
          (blockTextOf st.lines (st.i - B.length) (st.i - 1)) with
      | false =>
        rw [reconcileMethod_eq_keep path text st m _ _ hf hc]
        exact ⟨rfl, rfl⟩
      | true =>
        rw [reconcileMethod_eq_replace path text st m _ _ hf hc]
        exact ⟨by rw [hB]; exact hsplice.1, by rw [hB]; exact hsplice.2⟩
    | none =>
      cases hp : PROPERTY_PATTERN_match (st.lines.getD st.i "") with
      | some p =>
        cases hpar : (st.lines.getD st.i "").data.any (fun c => c == '(') with
        | true =>
          exfalso
          simp only [builtBlockFor] at hb
          rw [ht, hm, hp] at hb
          simp only [hpar, if_pos rfl] at hb
          exact Option.noConfusion hb
        | false =>
          have hB : build_summary_block (propSummaryOf text p) = B := by
            simp only [builtBlockFor] at hb
            rw [ht, hm, hp] at hb
            simp only [hpar, Bool.false_eq_true, if_false] at hb
            simpa using hb
          rw [procStep_eq_prop path text st p ht hm hp hpar]
          cases hc : isPlaceholderBlock
              (blockTextOf st.lines (st.i - B.length) (st.i - 1)) with
          | false =>
            rw [reconcileProp_eq_keep text st p _ _ hf hc]
            exact ⟨rfl, rfl⟩
          | true =>
            rw [reconcileProp_eq_replace text st p _ _ hf hc]
            exact ⟨by rw [hB]; exact hsplice.1, by rw [hB]; exact hsplice.2⟩
      | none =>
        exfalso
        simp only [builtBlockFor] at hb
        rw [ht, hm, hp] at hb
        exact Option.noConfusion hb

/-- Witness for claim C2 (amended): re-scanning a class declaration whose
block the engine itself generated leaves the buffer unchanged. -/
theorem claim_C2_step_preserves_own_block_witness :
    (procStep ["Foo.cs"]
        "/// <summary>\n/// Widget를(을) 제공합니다.\n/// </summary>\npublic class Widget"
        { lines := ["/// <summary>", "/// Widget를(을) 제공합니다.", "/// </summary>",
            "public class Widget"],
          i := 3, currentType := none, changed := false }).lines =
      ["/// <summary>", "/// Widget를(을) 제공합니다.", "/// </summary>",
        "public class Widget"] ∧
    (procStep ["Foo.cs"]
        "/// <summary>\n/// Widget를(을) 제공합니다.\n/// </summary>\npublic class Widget"
        { lines := ["/// <summary>", "/// Widget를(을) 제공합니다.", "/// </summary>",
            "public class Widget"],
          i := 3, currentType := none, changed := false }).i = 3 + 1 :=
  claim_C2_step_preserves_own_block ["Foo.cs"]
    "/// <summary>\n/// Widget를(을) 제공합니다.\n/// </summary>\npublic class Widget"
    { lines := ["/// <summary>", "/// Widget를(을) 제공합니다.", "/// </summary>",
        "public class Widget"],
      i := 3, currentType := none, changed := false }
    ["/// <summary>", "/// Widget를(을) 제공합니다.", "/// </summary>"]
    (by decide) (by decide) (by decide) (by decide) (by decide)
